import Mathlib

/-!
Verification development for the prisma-joi-generator code-generation engine.

The definitions below are a shallow embedding of the TypeScript sources:
`src/types.ts` (configuration parsing and validation), `src/pathResolver.ts`
(directory-strategy path resolution), `src/transformer.ts` (field-to-validator
mapping and module emission bookkeeping), `src/registry.ts` (the file-type
registry with dependency-ordered generation), and `src/prisma-generator.ts`
(the orchestration driver's effect on the process-wide Transformer statics).
JavaScript arrays become `List`, `Set` becomes a deduplicating list insert
preserving insertion order, `Map` lookup becomes `List.find?` over entries,
thrown exceptions become `Except String`, and `path.join` of the simple
relative segments used here becomes slash concatenation.
-/

/-- Models `path.join(a, b)` for the simple relative segments used by the
generator (no separators are normalized away in these inputs). -/
def pjoin (a b : String) : String := a ++ "/" ++ b

/-- Models `Set.add` on a JavaScript `Set` materialized as an insertion-ordered
list: appends the element only when it is not already present. -/
def jsSetAdd (l : List String) (x : String) : List String :=
  if x ∈ l then l else l ++ [x]

/-- Models building a JavaScript `Set` from an array (first occurrence wins). -/
def jsSetOfList (l : List String) : List String :=
  l.foldl jsSetAdd []

/-- Models `String.prototype.replace` with a string pattern on char lists:
only the first occurrence of `pat` is replaced by `rep`. -/
def replaceFirstL (pat rep : List Char) : List Char → List Char
  | [] => []
  | c :: cs =>
    if pat.isPrefixOf (c :: cs) then rep ++ (c :: cs).drop pat.length
    else c :: replaceFirstL pat rep cs

/-- `String.prototype.replace` (first occurrence) lifted to `String`. -/
def replaceFirst (s pat rep : String) : String :=
  String.mk (replaceFirstL pat.toList rep.toList s.toList)

/-- The twelve recognized artifact kinds, from `src/types.ts` (`JoiFileType`). -/
abbrev JoiFileType := String

/-- `validFileTypes` as repeated in `validateJoiGeneratorConfig`. -/
def validFileTypes : List JoiFileType :=
  ["create", "update", "upsert", "unchecked", "filter", "orderBy",
   "aggregate", "groupBy", "find", "delete", "enums", "objects"]

/-- Directory name overrides (`JoiGeneratorConfig.directories`), with the
defaults of `DEFAULT_CONFIG` available via `defaultDirectories`. -/
structure Directories where
  base : String
  objects : String
  enums : String
  models : String
deriving Repr, DecidableEq

def defaultDirectories : Directories :=
  { base := "schemas", objects := "objects", enums := "enums", models := "models" }

/-- File-naming patterns (`JoiGeneratorConfig.naming`). -/
structure Naming where
  schemaFiles : String
  objectFiles : String
  enumFiles : String
deriving Repr, DecidableEq

def defaultNaming : Naming :=
  { schemaFiles := "{operation}.schema", objectFiles := "{name}.schema",
    enumFiles := "{name}.schema" }

/-- The `fileTypes` map of `DEFAULT_CONFIG`: every kind enabled, in the
declaration order of the object literal. -/
def defaultFileTypes : List (JoiFileType × Bool) :=
  validFileTypes.map (fun t => (t, true))

/-- A `Partial<JoiGeneratorConfig>` as handed to `validateJoiGeneratorConfig`:
absent properties are `none`.  `fileTypes` and `directories` are kept as
entry lists in insertion order, mirroring `Object.entries`. -/
structure RawJoiGeneratorConfig where
  filterStrategy : Option String := none
  directoryStrategy : Option String := none
  includeTypes : Option (List String) := none
  excludeTypes : Option (List String) := none
  fileTypes : Option (List (JoiFileType × Bool)) := none
  directories : Option (List (String × String)) := none
  generateTypes : Option Bool := none
  generateIndex : Option Bool := none
  naming : Option Naming := none
deriving Repr

/-- `ValidatedJoiGeneratorConfig`: the merged configuration plus the computed
`enabledTypes` set (a JavaScript `Set`, modeled as a deduplicated list in
insertion order). -/
structure ValidatedJoiGeneratorConfig where
  filterStrategy : String
  directoryStrategy : String
  includeTypes : List String
  excludeTypes : List String
  fileTypes : List (JoiFileType × Bool)
  directories : Directories
  generateTypes : Bool
  generateIndex : Bool
  naming : Naming
  enabledTypes : List JoiFileType
deriving Repr

/-- `String.prototype.toLowerCase` for the ASCII configuration strings the
generator handles: per-character lower-casing. -/
def jsToLower (s : String) : String := String.mk (s.toList.map Char.toLower)

/-- `String.prototype.trim`: strip leading and trailing whitespace. -/
def jsTrim (s : String) : String :=
  String.mk (((s.toList.dropWhile Char.isWhitespace).reverse.dropWhile
    Char.isWhitespace).reverse)

/-- `parseBooleanString` from `src/types.ts`: accepts true/1/yes and
false/0/no after lower-casing and trimming, rejects anything else. -/
def parseBooleanString (value : String) : Except String Bool :=
  let normalized := jsTrim (jsToLower value)
  if normalized = "true" ∨ normalized = "1" ∨ normalized = "yes" then .ok true
  else if normalized = "false" ∨ normalized = "0" ∨ normalized = "no" then .ok false
  else .error ("Invalid boolean value: " ++ value ++ ". Expected true/false, 1/0, or yes/no")

/-- The character class of the directory-name validation regex
`/^[a-zA-Z0-9_-]+$/` in `validateJoiGeneratorConfig`. -/
def isDirChar (c : Char) : Bool :=
  (c ≥ 'a' ∧ c ≤ 'z') ∨ (c ≥ 'A' ∧ c ≤ 'Z') ∨ (c ≥ '0' ∧ c ≤ '9') ∨ c = '_' ∨ c = '-'

/-- `directoryRegex.test(value)`: the value is nonempty and every character is
in `[a-zA-Z0-9_-]`. -/
def dirNameOk (s : String) : Bool :=
  s ≠ "" ∧ s.toList.all isDirChar

/-- The directories override merged shallowly over the defaults, as the object
spread `{ ...DEFAULT_CONFIG, ...config }` does: a present `directories` object
replaces the default object wholesale, missing keys falling back to the empty
string that reading an absent property yields downstream.  For validation the
raw entry list is inspected; for the merged value we keep the entry list's
last binding per key, as property access does. -/
def dirEntriesToDirectories (entries : List (String × String)) : Directories :=
  let get := fun k => ((entries.filter (fun e => e.1 = k)).getLast?).map Prod.snd |>.getD ""
  { base := get "base", objects := get "objects", enums := get "enums", models := get "models" }

/-- The enabled-kind set computed by `validateJoiGeneratorConfig` for the
merged configuration (the `switch` on `filterStrategy`). -/
def computeEnabledTypes (strategy : String) (includeTypes excludeTypes : List String)
    (fileTypes : List (JoiFileType × Bool)) : List JoiFileType :=
  if strategy = "whitelist" then jsSetOfList includeTypes
  else if strategy = "blacklist" then
    jsSetOfList (validFileTypes.filter (fun t => ¬ t ∈ excludeTypes))
  else
    jsSetOfList ((fileTypes.filter (fun e => e.2)).map (fun e => e.1))

/-- `validateJoiGeneratorConfig` from `src/types.ts`: the sequence of checks,
in source order, each `throw` becoming an `Except.error` carrying the
message's leading line. -/
def validateJoiGeneratorConfig (config : RawJoiGeneratorConfig) :
    Except String ValidatedJoiGeneratorConfig :=
  let filterStrategy := config.filterStrategy.getD "selective"
  let directoryStrategy := config.directoryStrategy.getD "grouped"
  let includeTypes := config.includeTypes.getD []
  let excludeTypes := config.excludeTypes.getD []
  let fileTypes := config.fileTypes.getD defaultFileTypes
  let directories :=
    (config.directories.map dirEntriesToDirectories).getD defaultDirectories
  if (config.filterStrategy.map
      (fun s => decide (¬ s ∈ ["whitelist", "blacklist", "selective"]))).getD false then
    .error ("Invalid filterStrategy: " ++ config.filterStrategy.getD "")
  else if (config.directoryStrategy.map
      (fun s => decide (¬ s ∈ ["flat", "grouped", "by-model"]))).getD false then
    .error ("Invalid directoryStrategy: " ++ config.directoryStrategy.getD "")
  else if (config.includeTypes.getD []).any (fun t => ¬ t ∈ validFileTypes) then
    .error "Invalid file types in includeTypes"
  else if (config.excludeTypes.getD []).any (fun t => ¬ t ∈ validFileTypes) then
    .error "Invalid file types in excludeTypes"
  else if filterStrategy = "whitelist" ∧
      (config.includeTypes = none ∨ config.includeTypes = some []) then
    .error "includeTypes must be specified and non-empty when using whitelist strategy"
  else if filterStrategy = "blacklist" ∧
      (config.excludeTypes = none ∨ config.excludeTypes = some []) then
    .error "excludeTypes must be specified and non-empty when using blacklist strategy"
  else
    let enabledTypes := computeEnabledTypes filterStrategy includeTypes excludeTypes fileTypes
    if enabledTypes.length = 0 then
      .error "At least one file type must be enabled"
    else match (config.directories.getD []).find? (fun e => e.2 ≠ "" ∧ ¬ dirNameOk e.2) with
      | some e => .error ("Invalid directory name " ++ e.2 ++ " for " ++ e.1)
      | none =>
        .ok { filterStrategy, directoryStrategy, includeTypes, excludeTypes, fileTypes,
              directories, generateTypes := config.generateTypes.getD true,
              generateIndex := config.generateIndex.getD true,
              naming := config.naming.getD defaultNaming, enabledTypes }

/-- Logical identity of a generated file (`FileInfo` in `src/pathResolver.ts`). -/
structure FileInfo where
  type : JoiFileType
  fileName : String
  modelName : Option String := none
  category : String
deriving Repr, DecidableEq

/-- Result of path resolution (`ResolvedPath` in `src/pathResolver.ts`). -/
structure ResolvedPath where
  filePath : String
  directory : String
  filename : String
  importPath : String
deriving Repr, DecidableEq

/-- One step of `sanitizeDirectoryName`: after lower-casing, every character
outside `[a-z0-9]` is replaced by a hyphen (`/[^a-z0-9]/g`). -/
def dashify (c : Char) : Char :=
  if (c ≥ 'a' ∧ c ≤ 'z') ∨ (c ≥ '0' ∧ c ≤ '9') then c else '-'

/-- Hyphen runs (the `-+` global replacement) collapsed to a single hyphen. -/
def collapseDashes (l : List Char) : List Char :=
  l.foldr (fun c acc => if c = '-' ∧ acc.head? = some '-' then acc else c :: acc) []

/-- `/^-|-$/g` after collapsing: strip one leading and one trailing hyphen. -/
def stripEdgeDashes (l : List Char) : List Char :=
  let l1 := if l.head? = some '-' then l.tail else l
  if l1.getLast? = some '-' then l1.dropLast else l1

/-- `sanitizeDirectoryName` from `src/pathResolver.ts`. -/
def sanitizeDirectoryName (name : String) : String :=
  String.mk (stripEdgeDashes (collapseDashes ((name.toList.map Char.toLower).map dashify)))

/-- `getFilename`: pick the naming pattern for the category, substitute the
first occurrence of each placeholder, append the module extension. -/
def getFilename (cfg : ValidatedJoiGeneratorConfig) (fi : FileInfo) : String :=
  let pattern :=
    if fi.category = "schema" then cfg.naming.schemaFiles
    else if fi.category = "object" then cfg.naming.objectFiles
    else if fi.category = "enum" then cfg.naming.enumFiles
    else cfg.naming.schemaFiles
  (replaceFirst (replaceFirst (replaceFirst pattern "{operation}" fi.fileName)
    "{name}" fi.fileName) "{type}" fi.type) ++ ".ts"

/-- `resolveFlatPath`: every artifact directly under the base directory. -/
def resolveFlatPath (cfg : ValidatedJoiGeneratorConfig) (fi : FileInfo) : ResolvedPath :=
  let baseDir := cfg.directories.base
  let filename := getFilename cfg fi
  { filePath := pjoin baseDir filename, directory := baseDir, filename,
    importPath := "./" ++ fi.fileName ++ ".schema" }

/-- `resolveGroupedPath`: objects and enums in their subdirectories, schema
files in the base directory. -/
def resolveGroupedPath (cfg : ValidatedJoiGeneratorConfig) (fi : FileInfo) : ResolvedPath :=
  let baseDir := cfg.directories.base
  let filename := getFilename cfg fi
  if fi.category = "enum" then
    { filePath := pjoin (pjoin baseDir cfg.directories.enums) filename,
      directory := pjoin baseDir cfg.directories.enums, filename,
      importPath := "../enums/" ++ fi.fileName ++ ".schema" }
  else if fi.category = "object" then
    { filePath := pjoin (pjoin baseDir cfg.directories.objects) filename,
      directory := pjoin baseDir cfg.directories.objects, filename,
      importPath := "./" ++ fi.fileName ++ ".schema" }
  else
    { filePath := pjoin baseDir filename, directory := baseDir, filename,
      importPath := "./" ++ fi.fileName ++ ".schema" }

/-- `resolveByModelPath`: model-owned files nested under a sanitized per-model
directory, enums kept global, model-less files falling back to grouped. -/
def resolveByModelPath (cfg : ValidatedJoiGeneratorConfig) (fi : FileInfo) : ResolvedPath :=
  match fi.modelName with
  | none => resolveGroupedPath cfg fi
  | some m =>
    let baseDir := cfg.directories.base
    let filename := getFilename cfg fi
    let modelDir := sanitizeDirectoryName m
    if fi.category = "schema" then
      { filePath := pjoin (pjoin (pjoin baseDir cfg.directories.models) modelDir) filename,
        directory := pjoin (pjoin baseDir cfg.directories.models) modelDir, filename,
        importPath := "./" ++ fi.fileName ++ ".schema" }
    else if fi.category = "object" then
      { filePath := pjoin (pjoin (pjoin (pjoin baseDir cfg.directories.models) modelDir)
          cfg.directories.objects) filename,
        directory := pjoin (pjoin (pjoin baseDir cfg.directories.models) modelDir)
          cfg.directories.objects, filename,
        importPath := "./objects/" ++ fi.fileName ++ ".schema" }
    else if fi.category = "enum" then
      { filePath := pjoin (pjoin baseDir cfg.directories.enums) filename,
        directory := pjoin baseDir cfg.directories.enums, filename,
        importPath := "../../enums/" ++ fi.fileName ++ ".schema" }
    else
      { filePath := pjoin (pjoin (pjoin baseDir cfg.directories.models) modelDir) filename,
        directory := pjoin (pjoin baseDir cfg.directories.models) modelDir, filename,
        importPath := "./" ++ fi.fileName ++ ".schema" }

/-- `resolvePath`: dispatch on the directory strategy, defaulting to grouped. -/
def resolvePath (cfg : ValidatedJoiGeneratorConfig) (fi : FileInfo) : ResolvedPath :=
  if cfg.directoryStrategy = "flat" then resolveFlatPath cfg fi
  else if cfg.directoryStrategy = "grouped" then resolveGroupedPath cfg fi
  else if cfg.directoryStrategy = "by-model" then resolveByModelPath cfg fi
  else resolveGroupedPath cfg fi

/-- The grouped-strategy arm of `resolveIndexPath` (also the fallback the
by-model and default arms delegate to). -/
def resolveIndexPathGrouped (cfg : ValidatedJoiGeneratorConfig) (category : String) :
    ResolvedPath :=
  let baseDir := cfg.directories.base
  if category = "object" then
    { filePath := pjoin (pjoin baseDir cfg.directories.objects) "index.ts",
      directory := pjoin baseDir cfg.directories.objects, filename := "index.ts",
      importPath := "./objects/index" }
  else if category = "enum" then
    { filePath := pjoin (pjoin baseDir cfg.directories.enums) "index.ts",
      directory := pjoin baseDir cfg.directories.enums, filename := "index.ts",
      importPath := "./enums/index" }
  else
    { filePath := pjoin baseDir "index.ts", directory := baseDir,
      filename := "index.ts", importPath := "./index" }

/-- `resolveIndexPath` from `src/pathResolver.ts`. -/
def resolveIndexPath (cfg : ValidatedJoiGeneratorConfig) (category : String)
    (modelName : Option String) : ResolvedPath :=
  let baseDir := cfg.directories.base
  if cfg.directoryStrategy = "flat" then
    { filePath := pjoin baseDir "index.ts", directory := baseDir,
      filename := "index.ts", importPath := "./index" }
  else if cfg.directoryStrategy = "grouped" then resolveIndexPathGrouped cfg category
  else if cfg.directoryStrategy = "by-model" then
    match modelName with
    | some m =>
      if category = "model" then
        let modelDir := sanitizeDirectoryName m
        { filePath := pjoin (pjoin (pjoin baseDir cfg.directories.models) modelDir) "index.ts",
          directory := pjoin (pjoin baseDir cfg.directories.models) modelDir,
          filename := "index.ts", importPath := "./models/" ++ modelDir ++ "/index" }
      else resolveIndexPathGrouped cfg category
    | none => resolveIndexPathGrouped cfg category
  else resolveIndexPathGrouped cfg category

/-- The operation-name alternatives of `extractModelName`'s first pattern, in
source order. -/
def opPrefixes : List String :=
  ["findUnique", "findFirst", "findMany", "createOne", "updateOne", "deleteOne",
   "upsertOne", "deleteMany", "updateMany", "aggregate", "groupBy"]

/-- The input-type-kind alternatives of `extractModelName`'s second pattern,
in source order. -/
def inputTypeMarkers : List String :=
  ["CreateInput", "UpdateInput", "WhereInput", "OrderByInput", "UncheckedCreateInput",
   "UncheckedUpdateInput", "AvgOrderByAggregateInput", "CountOrderByAggregateInput",
   "MaxOrderByAggregateInput", "MinOrderByAggregateInput", "SumOrderByAggregateInput",
   "ScalarWhereWithAggregatesInput", "CreateManyInput", "UpdateManyMutationInput",
   "UncheckedUpdateManyInput", "OrderByWithAggregationInput", "OrderByWithRelationInput",
   "WhereUniqueInput", "ListRelationFilter", "ScalarRelationFilter",
   "NullableScalarRelationFilter", "CreateNestedManyWithoutInput",
   "CreateNestedOneWithoutInput", "UpdateNestedManyWithoutInput",
   "UpdateNestedOneWithoutInput", "UncheckedCreateNestedManyWithoutInput",
   "UncheckedUpdateNestedManyWithoutInput", "CreateOrConnectWithoutInput",
   "UpdateWithWhereUniqueWithoutInput", "UpdateWithoutInput",
   "UpsertWithWhereUniqueWithoutInput", "UpsertWithoutInput", "CreateWithoutInput",
   "UncheckedCreateWithoutInput", "UncheckedUpdateWithoutInput",
   "UpdateManyWithWhereWithoutInput", "UpdateManyWithoutNestedInput",
   "CreateManyInputEnvelope", "ScalarWhereInput"]

/-- Pattern 1 of `extractModelName`:
regex (the op names)(.+)$ anchored at the start — the unique operation
name that is a proper prefix, returning the nonempty remainder. -/
def matchOpPattern (nameL : List Char) : Option (List Char) :=
  (opPrefixes.find? (fun p =>
    p.toList.isPrefixOf nameL ∧ p.toList.length < nameL.length)).map
    (fun p => nameL.drop p.toList.length)

/-- Pattern 2 of `extractModelName`: the lazy (.+?) group grows one character
at a time, so the result is the shortest nonempty prefix after which one of
the marker alternatives matches (anything may follow the marker). -/
def findMarkerSplit (pre rest : List Char) : Option (List Char) :=
  match rest with
  | [] => none
  | c :: cs =>
    if inputTypeMarkers.any (fun m => m.toList.isPrefixOf cs) then some (pre ++ [c])
    else findMarkerSplit (pre ++ [c]) cs

/-- Pattern 2 entry point: the split search starts with an empty group. -/
def matchMarkerPattern (nameL : List Char) : Option (List Char) :=
  findMarkerSplit [] nameL

/-- Pattern 3 of `extractModelName`: greedy (.+)(Schema)$ — strips one
trailing `Schema` from a longer name. -/
def matchSchemaSuffix (nameL : List Char) : Option (List Char) :=
  if ("Schema".toList).isSuffixOf nameL ∧ ("Schema".toList).length < nameL.length then
    some (nameL.take (nameL.length - 6))
  else none

/-- `extractModelName` from `src/pathResolver.ts`: the three patterns tried in
order, the first match winning, no match yielding `none`. -/
def extractModelName (operationName : String) : Option String :=
  let nameL := operationName.toList
  match matchOpPattern nameL with
  | some m => some (String.mk m)
  | none =>
    match matchMarkerPattern nameL with
    | some m => some (String.mk m)
    | none => (matchSchemaSuffix nameL).map String.mk

/-- `hasObjectTypes`: any of the object-flavored kinds is enabled. -/
def hasObjectTypes (cfg : ValidatedJoiGeneratorConfig) : Bool :=
  ["objects", "filter", "orderBy", "unchecked"].any (fun t => t ∈ cfg.enabledTypes)

/-- The per-model body of `getRequiredDirectories`'s by-model loop: the
model's directory, plus its objects subdirectory when object kinds are
enabled. -/
def byModelStep (cfg : ValidatedJoiGeneratorConfig) (dirs : List String)
    (m : String) : List String :=
  let modelPath :=
    pjoin (pjoin cfg.directories.base cfg.directories.models) (sanitizeDirectoryName m)
  let dirs := jsSetAdd dirs modelPath
  if hasObjectTypes cfg then jsSetAdd dirs (pjoin modelPath cfg.directories.objects)
  else dirs

/-- `getRequiredDirectories` from `src/pathResolver.ts`: the `Set` of
directories accumulated per strategy, in insertion order. -/
def getRequiredDirectories (cfg : ValidatedJoiGeneratorConfig)
    (modelNames : List String) : List String :=
  let baseDir := cfg.directories.base
  let dirs := jsSetAdd [] baseDir
  if cfg.directoryStrategy = "flat" then dirs
  else if cfg.directoryStrategy = "grouped" then
    let dirs := if "enums" ∈ cfg.enabledTypes then
      jsSetAdd dirs (pjoin baseDir cfg.directories.enums) else dirs
    if hasObjectTypes cfg then jsSetAdd dirs (pjoin baseDir cfg.directories.objects) else dirs
  else if cfg.directoryStrategy = "by-model" then
    let dirs := if "enums" ∈ cfg.enabledTypes then
      jsSetAdd dirs (pjoin baseDir cfg.directories.enums) else dirs
    modelNames.foldl (byModelStep cfg) dirs
  else dirs

/-- `PrismaDMMF.SchemaArgInputType`: one candidate input-type reference.
The source's `namespace` property is spelled `nspace` (keyword clash). -/
structure SchemaArgInputType where
  isList : Bool
  type : String
  nspace : Option String := none
deriving Repr, DecidableEq

/-- `PrismaDMMF.SchemaArg`: one field description. -/
structure SchemaArg where
  name : String
  isRequired : Bool
  isNullable : Bool
  inputTypes : List SchemaArgInputType
deriving Repr, DecidableEq

/-- `Transformer.getPrismaStringLine`: the validator expression for a
prisma-namespace candidate.  `tname` is the transformer's current type name
(`this.name`), `enumNames` the static known-enum list. -/
def getPrismaStringLine (tname : String) (enumNames : List String) (field : SchemaArg)
    (inputType : SchemaArgInputType) (inputsLength : Nat) : String :=
  if inputsLength = 1 then
    if inputType.isList then
      if inputType.type = tname then
        "  " ++ field.name ++ ": Joi.array().items(Joi.link('#" ++ inputType.type ++ "'))"
      else
        "  " ++ field.name ++ ": " ++
          (if inputType.type ∈ enumNames then inputType.type ++ "Schema"
           else "Joi.array().items(Joi.object().keys(" ++ inputType.type ++ "SchemaObject))")
    else
      if inputType.type = tname then
        "  " ++ field.name ++ ": Joi.link('#" ++ inputType.type ++ "')"
      else
        "  " ++ field.name ++ ": " ++
          (if inputType.type ∈ enumNames then inputType.type ++ "Schema"
           else "Joi.object().keys(" ++ inputType.type ++ "SchemaObject)")
  else if inputsLength > 1 then
    if inputType.isList then
      if inputType.type = tname then
        "Joi.array().items(Joi.link('#" ++ inputType.type ++ "'))"
      else
        (if inputType.type ∈ enumNames then inputType.type ++ "Schema"
         else "Joi.array().items(Joi.object().keys(" ++ inputType.type ++ "SchemaObject))")
    else
      if inputType.type = tname then
        "Joi.link('#" ++ inputType.type ++ "')"
      else
        (if inputType.type ∈ enumNames then inputType.type ++ "Schema"
         else "Joi.object().keys(" ++ inputType.type ++ "SchemaObject)")
  else ""

/-- `Transformer.getFieldValidators`: append the required and nullable
markers according to the field's flags. -/
def getFieldValidators (joiStringWithMainType : String) (field : SchemaArg) : String :=
  joiStringWithMainType ++
    (if field.isRequired then ".required()" else "") ++
    (if field.isNullable then ".allow(null)" else "")

/-- One element of the array `getSchemaObjectLine` builds for a field: the
expression, the field, and the skip-validators flag (`true` exactly for the
entries the source tags with a third `true` element; the source's empty
arrays, dropped later by the `length > 0` filter, are `none`). -/
abbrev SchemaLineItem := String × SchemaArg × Bool

/-- The body of the multi-candidate `reduce` in `getSchemaObjectLine`:
accumulates alternation branches and the import set. -/
def altStep (tname : String) (enumNames : List String) (field : SchemaArg)
    (inputsLength : Nat) (acc : List String × List String) (c : SchemaArgInputType) :
    List String × List String :=
  let result := acc.1
  let imports := acc.2
  if c.type = "String" then
    (result ++ [if c.isList then "Joi.array().items(Joi.string())" else "Joi.string()"], imports)
  else if c.type = "Int" ∨ c.type = "Float" then
    (result ++ [if c.isList then "Joi.array().items(Joi.number())" else "Joi.number()"], imports)
  else if c.type = "Boolean" then
    (result ++ [if c.isList then "Joi.array().items(Joi.boolean())" else "Joi.boolean()"], imports)
  else if c.nspace = some "prisma" then
    let imports := if c.type ≠ tname then jsSetAdd imports c.type else imports
    (result ++ [getPrismaStringLine tname enumNames field c inputsLength], imports)
  else if c.type = "Json" then
    (result ++ [if c.isList then "Joi.array().items(Joi.any())" else "Joi.any()"], imports)
  else (result, imports)

/-- `Transformer.getSchemaObjectLine`: maps one field to its line items and
threads `this.schemaImports` (the `addSchemaImport` side effects) explicitly. -/
def getSchemaObjectLine (tname : String) (enumNames : List String)
    (imports : List String) (field : SchemaArg) :
    List (Option SchemaLineItem) × List String :=
  match field.inputTypes with
  | [] => ([], imports)
  | [c] =>
    if c.type = "String" then
      ([some ("  " ++ field.name ++ ": " ++
        (if c.isList then "Joi.array().items(Joi.string())" else "Joi.string()"),
        field, false)], imports)
    else if c.type = "Int" ∨ c.type = "Float" then
      ([some ("  " ++ field.name ++ ": " ++
        (if c.isList then "Joi.array().items(Joi.number())" else "Joi.number()"),
        field, false)], imports)
    else if c.type = "Boolean" then
      ([some ("  " ++ field.name ++ ": " ++
        (if c.isList then "Joi.array().items(Joi.boolean())" else "Joi.boolean()"),
        field, false)], imports)
    else if c.type = "DateTime" then
      ([some ("  " ++ field.name ++ ": " ++
        (if c.isList then "Joi.array().items(Joi.date())" else "Joi.date()"),
        field, false)], imports)
    else if c.nspace = some "prisma" then
      let imports := if c.type ≠ tname then jsSetAdd imports c.type else imports
      ([some (getPrismaStringLine tname enumNames field c 1, field, true)], imports)
    else ([none], imports)
  | c1 :: c2 :: rest =>
    let cands := c1 :: c2 :: rest
    let acc := cands.foldl (altStep tname enumNames field cands.length) ([], imports)
    if acc.1 ≠ [] then
      ([some ("  " ++ field.name ++ ": Joi.alternatives().try(" ++
        String.intercalate ",\r\n" acc.1 ++ ")", field, true)], acc.2)
    else ([none], acc.2)

/-- The per-field part of the `printSchemaObjects` pipeline: drop the empty
entries, then apply `getFieldValidators` unless the skip flag is set. -/
def mapFieldOutputs (tname : String) (enumNames : List String)
    (imports : List String) (field : SchemaArg) : List String × List String :=
  let (items, imports) := getSchemaObjectLine tname enumNames imports field
  ((items.filterMap id).map (fun it => if it.2.2 then it.1 else getFieldValidators it.1 it.2.1),
   imports)

/-- The whole field loop of `printSchemaObjects`: all fields in order,
threading the import set. -/
def processFields (tname : String) (enumNames : List String) :
    List SchemaArg → List String → List String × List String
  | [], imports => ([], imports)
  | f :: fs, imports =>
    let (outs, imports) := mapFieldOutputs tname enumNames imports f
    let (rest, importsF) := processFields tname enumNames fs imports
    (outs ++ rest, importsF)

/-- `PrismaDMMF.ModelMapping`: the operation entry points of one model, as
destructured by `printModelSchemas` (absent operations are `none`). -/
structure ModelMapping where
  model : String
  findUnique : Option String := none
  findFirst : Option String := none
  findMany : Option String := none
  createOne : Option String := none
  deleteOne : Option String := none
  updateOne : Option String := none
  deleteMany : Option String := none
  updateMany : Option String := none
  upsertOne : Option String := none
  aggregate : Option String := none
  groupBy : Option String := none
deriving Repr, DecidableEq

/-- One emitted module, as the bookkeeping sees it: the resolved file path,
the entry pushed to the tracking list, and which of the three static lists
(`SCHEMAS` / `SCHEMA_OBJECTS` / `SCHEMA_ENUMS`) receives it. -/
structure GenArtifact where
  filePath : String
  tracked : String
  trackedList : String
deriving Repr, DecidableEq

/-- `Transformer.resolveFilePath`: resolve through the path resolver and make
the result absolute against the output path. -/
def resolveFilePath (cfg : ValidatedJoiGeneratorConfig) (outputPath : String)
    (fi : FileInfo) : String :=
  pjoin outputPath (resolvePath cfg fi).filePath

/-- One guarded operation emission of `printModelSchemas`: an operation that
is present in the mapping and whose owning kind is enabled yields one schema
module, tracked as `./<operation>.schema`. -/
def opEmission (cfg : ValidatedJoiGeneratorConfig) (outputPath : String)
    (kind : JoiFileType) (modelName : String) (op : Option String) : List GenArtifact :=
  match op with
  | none => []
  | some opName =>
    if kind ∈ cfg.enabledTypes then
      [{ filePath := resolveFilePath cfg outputPath
           { type := kind, fileName := opName, modelName := some modelName,
             category := "schema" },
         tracked := "./" ++ opName ++ ".schema", trackedList := "SCHEMAS" }]
    else []

/-- `Transformer.printModelSchemas`: for every mapping, the present and
enabled operations in source order, each appended to the schema-file list. -/
def printModelSchemas (cfg : ValidatedJoiGeneratorConfig) (outputPath : String)
    (modelOperations : List ModelMapping) : List GenArtifact :=
  modelOperations.flatMap (fun m =>
    opEmission cfg outputPath "find" m.model m.findUnique ++
    opEmission cfg outputPath "find" m.model m.findFirst ++
    opEmission cfg outputPath "find" m.model m.findMany ++
    opEmission cfg outputPath "create" m.model m.createOne ++
    opEmission cfg outputPath "delete" m.model m.deleteOne ++
    opEmission cfg outputPath "delete" m.model m.deleteMany ++
    opEmission cfg outputPath "update" m.model m.updateOne ++
    opEmission cfg outputPath "update" m.model m.updateMany ++
    opEmission cfg outputPath "upsert" m.model m.upsertOne ++
    opEmission cfg outputPath "aggregate" m.model m.aggregate ++
    opEmission cfg outputPath "groupBy" m.model m.groupBy)

/-- `Transformer.printEnumSchemas`: one module per enum type, tracked on the
enum list. -/
def printEnumSchemas (cfg : ValidatedJoiGeneratorConfig) (outputPath : String)
    (enumTypes : List String) : List GenArtifact :=
  enumTypes.map (fun n =>
    { filePath := resolveFilePath cfg outputPath
        { type := "enums", fileName := n, category := "enum" },
      tracked := "./" ++ n ++ ".schema", trackedList := "SCHEMA_ENUMS" })

/-- The bookkeeping effect of one `printSchemaObjects` call for a named type:
the object module, tracked on the object list. -/
def printSchemaObjectsArtifact (cfg : ValidatedJoiGeneratorConfig) (outputPath : String)
    (n : String) : GenArtifact :=
  { filePath := resolveFilePath cfg outputPath
      { type := "objects", fileName := n, modelName := extractModelName n,
        category := "object" },
    tracked := "./" ++ n ++ ".schema", trackedList := "SCHEMA_OBJECTS" }

/-- `GenerationContext` (registry.ts): the slices of the DMMF the generators
read, the validated configuration, and the ambient output path.  Models and
type lists are carried by name; only names reach the bookkeeping modeled
here. -/
structure GenerationContext where
  models : List String
  inputObjectTypes : List String
  enumTypes : List String
  fieldRefTypes : List String
  modelOperations : List ModelMapping
  config : ValidatedJoiGeneratorConfig
  outputPath : String
deriving Repr

/-- `shouldGenerateInputObject` from `src/registry.ts`. -/
def shouldGenerateInputObject (cfg : ValidatedJoiGeneratorConfig) : Bool :=
  "objects" ∈ cfg.enabledTypes ∨ "filter" ∈ cfg.enabledTypes ∨
  "orderBy" ∈ cfg.enabledTypes ∨ "unchecked" ∈ cfg.enabledTypes

/-- The generator registered for the `enums` kind. -/
def enumsGenerator (ctx : GenerationContext) : List GenArtifact :=
  printEnumSchemas ctx.config ctx.outputPath ctx.enumTypes

/-- The generator registered for the `objects` kind: field-ref types first,
then the input-object types passing the configuration filter. -/
def objectsGenerator (ctx : GenerationContext) : List GenArtifact :=
  if "objects" ∈ ctx.config.enabledTypes then
    ctx.fieldRefTypes.map (printSchemaObjectsArtifact ctx.config ctx.outputPath) ++
    (if shouldGenerateInputObject ctx.config then
      ctx.inputObjectTypes.map (printSchemaObjectsArtifact ctx.config ctx.outputPath)
     else [])
  else []

/-- The generator registered for every model-operation kind: it sets the
transformer's `modelOperations` to the context's full mapping list and runs
`printModelSchemas` (note: it does not read `ctx.models`). -/
def modelOpGenerator (ctx : GenerationContext) : List GenArtifact :=
  printModelSchemas ctx.config ctx.outputPath ctx.modelOperations

/-- `FileTypeMetadata` from `src/registry.ts`. -/
structure FileTypeMetadata where
  displayName : String
  description : String
  priority : Int
  dependencies : List JoiFileType
  category : String
  perModel : Bool

/-- A registry entry: kind, metadata and generator callback. -/
structure FileTypeRegistryEntry where
  type : JoiFileType
  metadata : FileTypeMetadata
  generator : GenerationContext → List GenArtifact

/-- The registry `Map`, as its insertion-ordered entry list. -/
abbrev Registry := List FileTypeRegistryEntry

def getMetadata (reg : Registry) (t : JoiFileType) : Option FileTypeMetadata :=
  (reg.find? (fun e => e.type = t)).map (fun e => e.metadata)

/-- The dependency list consulted by `visit` and `validateDependencies`
(absent entries contribute none). -/
def depsOf (reg : Registry) (t : JoiFileType) : List JoiFileType :=
  ((reg.find? (fun e => e.type = t)).map (fun e => e.metadata.dependencies)).getD []

def getAllTypes (reg : Registry) : List JoiFileType := reg.map (fun e => e.type)

/-- `getEnabledTypes`: the registered kinds enabled by the configuration. -/
def getEnabledTypes (reg : Registry) (cfg : ValidatedJoiGeneratorConfig) :
    List JoiFileType :=
  (getAllTypes reg).filter (fun t => t ∈ cfg.enabledTypes)

/-- The priority used by the seeding sort (unknown kinds default to 100). -/
def priorityOf (reg : Registry) (t : JoiFileType) : Int :=
  ((getMetadata reg t).map (fun m => m.priority)).getD 100

/-- The mutable state of `getGenerationOrder`'s depth-first traversal. -/
structure DfsState where
  processing : List JoiFileType
  processed : List JoiFileType
  sorted : List JoiFileType
deriving Repr

/-- The dependency loop inside `visit` (and, without the enabled filter, the
top-level loop of `getGenerationOrder`), abstracted over the recursive call:
visits each listed kind in order, short-circuiting on error.  `filtered`
selects whether only enabled dependencies are followed. -/
def visitFold (enabledTypes : List JoiFileType) (filtered : Bool)
    (v : JoiFileType → DfsState → Except String DfsState) :
    List JoiFileType → DfsState → Except String DfsState
  | [], s => .ok s
  | d :: ds, s =>
    if filtered = false ∨ d ∈ enabledTypes then
      match v d s with
      | .error e => .error e
      | .ok s1 => visitFold enabledTypes filtered v ds s1
    else visitFold enabledTypes filtered v ds s

/-- The recursive `visit` of `getGenerationOrder`.  The fuel argument only
bounds nesting depth; `getGenerationOrder` supplies one more than the number
of enabled kinds, which the acyclic-success theorem proves is never
exhausted. -/
def visit (reg : Registry) (enabledTypes : List JoiFileType) :
    Nat → JoiFileType → DfsState → Except String DfsState
  | 0, _, _ => .error "fuel exhausted"
  | fuel + 1, t, s =>
    if t ∈ s.processed then .ok s
    else if t ∈ s.processing then
      .error ("Circular dependency detected involving file type: " ++ t)
    else
      match visitFold enabledTypes true (visit reg enabledTypes fuel) (depsOf reg t)
          { s with processing := t :: s.processing } with
      | .error e => .error e
      | .ok s2 =>
        .ok { processing := s2.processing.erase t, processed := t :: s2.processed,
              sorted := s2.sorted ++ [t] }

/-- `getGenerationOrder` from `src/registry.ts`: enabled kinds seeded in
priority order, then depth-first emitted after their enabled dependencies;
a kind revisited while still in `processing` raises the circular-dependency
error. -/
def getGenerationOrder (reg : Registry) (cfg : ValidatedJoiGeneratorConfig) :
    Except String (List JoiFileType) :=
  let enabledTypes := getEnabledTypes reg cfg
  let prioritySorted :=
    List.insertionSort (fun a b => priorityOf reg a ≤ priorityOf reg b) enabledTypes
  match visitFold enabledTypes false (visit reg enabledTypes (enabledTypes.length + 1))
      prioritySorted { processing := [], processed := [], sorted := [] } with
  | .ok s => .ok s.sorted
  | .error e => .error e

/-- `validateDependencies` from `src/registry.ts`: one error string per
enabled kind whose declared dependency is not enabled. -/
def validateDependencies (reg : Registry) (cfg : ValidatedJoiGeneratorConfig) :
    List String :=
  (getEnabledTypes reg cfg).flatMap (fun t =>
    (depsOf reg t).filterMap (fun dep =>
      if dep ∈ getEnabledTypes reg cfg then none
      else some ("File type '" ++ t ++ "' requires '" ++ dep ++ "' to be enabled")))

/-- The fixed batch slicing of `generateInBatches` (`batchSize = 5`):
`models.slice(i, i + 5)` for `i = 0, 5, 10, ...`. -/
def batchSlices : List String → List (List String)
  | [] => []
  | [a] => [[a]]
  | [a, b] => [[a, b]]
  | [a, b, c] => [[a, b, c]]
  | [a, b, c, d] => [[a, b, c, d]]
  | a :: b :: c :: d :: e :: rest => [a, b, c, d, e] :: batchSlices rest

/-- `generateInBatches`: run the generator once per batch, each time on a
reduced context carrying only that batch's models (the shared context is
rebuilt by spread, not mutated). -/
def generateInBatches (gen : GenerationContext → List GenArtifact)
    (ctx : GenerationContext) : List GenArtifact :=
  (batchSlices ctx.models).flatMap (fun batch => gen { ctx with models := batch })

/-- The per-kind dispatch inside `executeGeneration`'s loop: per-model kinds
with more than 10 models are batched, everything else runs once on the shared
context. -/
def executeGenForType (perModel : Bool) (gen : GenerationContext → List GenArtifact)
    (ctx : GenerationContext) : List GenArtifact :=
  if perModel ∧ ctx.models.length > 10 then generateInBatches gen ctx else gen ctx

/-- `executeGeneration` from `src/registry.ts`: dependency validation aborts
the whole run before any generator is invoked; otherwise the enabled kinds
run in generation order, producing the concatenated artifact log. -/
def executeGeneration (reg : Registry) (ctx : GenerationContext) :
    Except String (List GenArtifact) :=
  let dependencyErrors := validateDependencies reg ctx.config
  if dependencyErrors ≠ [] then
    .error ("Dependency validation failed:\n" ++ String.intercalate "\n" dependencyErrors)
  else
    match getGenerationOrder reg ctx.config with
    | .error e => .error e
    | .ok generationOrder =>
      .ok (generationOrder.flatMap (fun t =>
        match reg.find? (fun e => e.type = t) with
        | some entry => executeGenForType entry.metadata.perModel entry.generator ctx
        | none => []))

/-- The built-in registry of `registerBuiltInTypes`, in registration order:
enums, objects, the seven model-operation kinds, then the three object-flavor
kinds whose generators are no-ops. -/
def builtinRegistry : Registry :=
  [⟨"enums", ⟨"Enum Schemas", "Joi validation schemas for Prisma enums",
      1, [], "enums", false⟩, enumsGenerator⟩,
   ⟨"objects", ⟨"Object Schemas", "Joi validation schemas for input object types",
      2, ["enums"], "input-objects", false⟩, objectsGenerator⟩,
   ⟨"find", ⟨"Find Operations",
      "Joi schemas for find operations (findUnique, findFirst, findMany)",
      10, ["objects", "enums"], "model-operations", true⟩, modelOpGenerator⟩,
   ⟨"create", ⟨"Create Operations", "Joi schemas for create operations",
      11, ["objects", "enums"], "model-operations", true⟩, modelOpGenerator⟩,
   ⟨"update", ⟨"Update Operations", "Joi schemas for update operations",
      12, ["objects", "enums"], "model-operations", true⟩, modelOpGenerator⟩,
   ⟨"upsert", ⟨"Upsert Operations", "Joi schemas for upsert operations",
      13, ["objects", "enums"], "model-operations", true⟩, modelOpGenerator⟩,
   ⟨"delete", ⟨"Delete Operations", "Joi schemas for delete operations",
      14, ["objects", "enums"], "model-operations", true⟩, modelOpGenerator⟩,
   ⟨"aggregate", ⟨"Aggregate Operations", "Joi schemas for aggregate operations",
      15, ["objects", "enums"], "model-operations", true⟩, modelOpGenerator⟩,
   ⟨"groupBy", ⟨"GroupBy Operations", "Joi schemas for groupBy operations",
      16, ["objects", "enums"], "model-operations", true⟩, modelOpGenerator⟩,
   ⟨"filter", ⟨"Filter Schemas", "Joi schemas for filter and where input types",
      3, ["enums"], "input-objects", false⟩, fun _ => []⟩,
   ⟨"orderBy", ⟨"OrderBy Schemas", "Joi schemas for orderBy input types",
      4, ["enums"], "input-objects", false⟩, fun _ => []⟩,
   ⟨"unchecked", ⟨"Unchecked Input Schemas",
      "Joi schemas for unchecked input types (without relations)",
      5, ["enums"], "input-objects", false⟩, fun _ => []⟩]

/-- The process-wide mutable statics of the `Transformer` class. -/
structure TransformerStatics where
  enumNames : List String
  generatedSchemaFiles : List String
  generatedSchemaObjectFiles : List String
  generatedSchemaEnumFiles : List String
deriving Repr, DecidableEq

/-- The statics as initialized at module load. -/
def initialStatics : TransformerStatics :=
  { enumNames := [], generatedSchemaFiles := [], generatedSchemaObjectFiles := [],
    generatedSchemaEnumFiles := [] }

/-- The effect of one `generate` invocation (`src/prisma-generator.ts`) on the
Transformer statics: `enumNames` is rebuilt from the run's enum types
(line 80), and the generators append their tracked entries to the three
generated-file lists, which `generate` itself never reassigns or clears. -/
def generateRun (ctx : GenerationContext) (s : TransformerStatics) : TransformerStatics :=
  let s1 := { s with enumNames := ctx.enumTypes }
  match executeGeneration builtinRegistry ctx with
  | .error _ => s1
  | .ok arts =>
    { s1 with
      generatedSchemaFiles := s1.generatedSchemaFiles ++
        (arts.filter (fun a => a.trackedList = "SCHEMAS")).map (fun a => a.tracked),
      generatedSchemaObjectFiles := s1.generatedSchemaObjectFiles ++
        (arts.filter (fun a => a.trackedList = "SCHEMA_OBJECTS")).map (fun a => a.tracked),
      generatedSchemaEnumFiles := s1.generatedSchemaEnumFiles ++
        (arts.filter (fun a => a.trackedList = "SCHEMA_ENUMS")).map (fun a => a.tracked) }

/-- The argument union of `printIndex`. -/
inductive IndexKind
  | SCHEMAS
  | SCHEMA_OBJECTS
  | SCHEMA_ENUMS
deriving Repr, DecidableEq

/-- `Transformer.printIndex`: the re-export lines for the chosen tracking
list, written to a fixed path under the output directory. -/
def printIndex (s : TransformerStatics) (outputPath : String) (ty : IndexKind) :
    String × String :=
  let filesPaths :=
    match ty with
    | .SCHEMAS => s.generatedSchemaFiles
    | .SCHEMA_ENUMS => s.generatedSchemaEnumFiles
    | .SCHEMA_OBJECTS => s.generatedSchemaObjectFiles
  let exports := filesPaths.map (fun schemaPath => "export * from '" ++ schemaPath ++ "';")
  let outPath := pjoin outputPath
    (match ty with
     | .SCHEMAS => "schemas/index.ts"
     | .SCHEMA_ENUMS => "schemas/enums/index.ts"
     | .SCHEMA_OBJECTS => "schemas/objects/index.ts")
  (outPath, String.intercalate "\r\n" exports)

/-- `generateIndex` from `src/prisma-generator.ts`: the three index files, in
call order.  The configuration is in scope (as the Transformer static config
is at run time) but `printIndex` never consults it or the path resolver. -/
def generateIndexFiles (_cfg : ValidatedJoiGeneratorConfig) (outputPath : String)
    (s : TransformerStatics) : List (String × String) :=
  [printIndex s outputPath .SCHEMAS, printIndex s outputPath .SCHEMA_OBJECTS,
   printIndex s outputPath .SCHEMA_ENUMS]

/-- A validated configuration with all defaults, the given directory strategy
and the given enabled-kind set (concrete inputs for the theorems below). -/
def mkDefaultCfg (strategy : String) (enabled : List JoiFileType) :
    ValidatedJoiGeneratorConfig :=
  { filterStrategy := "selective", directoryStrategy := strategy, includeTypes := [],
    excludeTypes := [], fileTypes := defaultFileTypes, directories := defaultDirectories,
    generateTypes := true, generateIndex := true, naming := defaultNaming,
    enabledTypes := enabled }

/-- A generation context with eleven models (over the batching threshold of
ten), one model mapping, and the find kind enabled with its dependencies. -/
def c1Ctx : GenerationContext :=
  { models := ["M1", "M2", "M3", "M4", "M5", "M6", "M7", "M8", "M9", "M10", "M11"],
    inputObjectTypes := [], enumTypes := [], fieldRefTypes := [],
    modelOperations := [{ model := "User", findUnique := some "findUniqueUser" }],
    config := mkDefaultCfg "grouped" ["enums", "objects", "find"],
    outputPath := "out" }

/-- C1: the claim fails on the code.  The batched path of `executeGeneration`
re-invokes the per-model generator once per batch, but the registered
model-operation generators read the context's full `modelOperations` list and
ignore the reduced `models` slice, so with eleven models (three batches of at
most five) every operation artifact is produced three times: the batched run
does not equal the unbatched run (one generator invocation) — artifacts are
duplicated, and the tracked list that feeds the index files triples. -/
theorem executeGeneration_batching_duplicates :
    executeGenForType true modelOpGenerator c1Ctx =
      modelOpGenerator c1Ctx ++ modelOpGenerator c1Ctx ++ modelOpGenerator c1Ctx ∧
    modelOpGenerator c1Ctx ≠ [] ∧
    executeGenForType true modelOpGenerator c1Ctx ≠ modelOpGenerator c1Ctx ∧
    executeGeneration builtinRegistry c1Ctx =
      .ok (modelOpGenerator c1Ctx ++ modelOpGenerator c1Ctx ++ modelOpGenerator c1Ctx) :=
  ⟨by decide, by decide, by decide, rfl⟩

/-- A generation context below the batching threshold: one model, one enum,
one operation mapping. -/
def c2Ctx : GenerationContext :=
  { models := ["User"], inputObjectTypes := [], enumTypes := ["Role"],
    fieldRefTypes := [],
    modelOperations := [{ model := "User", findUnique := some "findUniqueUser" }],
    config := mkDefaultCfg "grouped" ["enums", "objects", "find"],
    outputPath := "out" }

/-- C2: the claim fails on the code.  `generate` rebuilds only
`Transformer.enumNames` per invocation; the three generated-module lists are
assigned once at class load and only ever pushed to, so after a second
`generate` call in the same process the entries tracked by the first run are
still present (here duplicated) when the second run assembles its index
files. -/
theorem generate_keeps_stale_tracked_entries :
    (generateRun c2Ctx initialStatics).generatedSchemaFiles = ["./findUniqueUser.schema"] ∧
    (generateRun c2Ctx initialStatics).generatedSchemaEnumFiles = ["./Role.schema"] ∧
    (generateRun c2Ctx (generateRun c2Ctx initialStatics)).generatedSchemaFiles =
      ["./findUniqueUser.schema", "./findUniqueUser.schema"] ∧
    (generateRun c2Ctx (generateRun c2Ctx initialStatics)).generatedSchemaEnumFiles =
      ["./Role.schema", "./Role.schema"] ∧
    (generateRun c2Ctx (generateRun c2Ctx initialStatics)).enumNames = ["Role"] := by
  decide

/-- C4: whenever an enabled kind declares a dependency on a kind that is not
enabled, `validateDependencies` reports it with an error string naming the
offending kind and its missing dependency, and `executeGeneration` fails the
whole run with an error before any generator contributes an artifact. -/
theorem validateDependencies_fails_whole_run (reg : Registry) (ctx : GenerationContext)
    (k d : JoiFileType) (hk : k ∈ getEnabledTypes reg ctx.config)
    (hd : d ∈ depsOf reg k) (hnd : d ∉ getEnabledTypes reg ctx.config) :
    ("File type '" ++ k ++ "' requires '" ++ d ++ "' to be enabled")
        ∈ validateDependencies reg ctx.config ∧
    validateDependencies reg ctx.config ≠ [] ∧
    ∃ e, executeGeneration reg ctx = .error e := by
  have hmem : ("File type '" ++ k ++ "' requires '" ++ d ++ "' to be enabled")
      ∈ validateDependencies reg ctx.config := by
    simp only [validateDependencies, List.mem_flatMap, List.mem_filterMap]
    exact ⟨k, hk, d, hd, by simp [hnd]⟩
  have hne : validateDependencies reg ctx.config ≠ [] := List.ne_nil_of_mem hmem
  refine ⟨hmem, hne, ?_⟩
  simp only [executeGeneration, if_pos hne]
  exact ⟨_, rfl⟩

/-- C4 witness: the built-in registry with only `find` and `enums` enabled
(`find` requires `objects`). -/
theorem validateDependencies_fails_whole_run_witness :
    ("File type 'find' requires 'objects' to be enabled")
        ∈ validateDependencies builtinRegistry (mkDefaultCfg "grouped" ["find", "enums"]) ∧
    validateDependencies builtinRegistry (mkDefaultCfg "grouped" ["find", "enums"]) ≠ [] ∧
    ∃ e, executeGeneration builtinRegistry
      { models := [], inputObjectTypes := [], enumTypes := [], fieldRefTypes := [],
        modelOperations := [], config := mkDefaultCfg "grouped" ["find", "enums"],
        outputPath := "out" } = .error e :=
  validateDependencies_fails_whole_run builtinRegistry
    { models := [], inputObjectTypes := [], enumTypes := [], fieldRefTypes := [],
      modelOperations := [], config := mkDefaultCfg "grouped" ["find", "enums"],
      outputPath := "out" }
    "find" "objects" (by decide) (by decide) (by decide)

/-- C10: for every configuration (any directory strategy) `generateIndex`
writes the three index files at the fixed paths `schemas/index.ts`,
`schemas/objects/index.ts` and `schemas/enums/index.ts` under the output
root, re-exporting the tracked module paths in recorded order; the output is
independent of the configuration, unlike `resolveIndexPath`, which under the
flat strategy would place the enums index at `schemas/index.ts` — so index
placement does not vary with the directory strategy. -/
theorem printIndex_fixed_paths (cfg : ValidatedJoiGeneratorConfig) (out : String)
    (st : TransformerStatics) :
    generateIndexFiles cfg out st =
      [(pjoin out "schemas/index.ts", String.intercalate "\r\n"
          (st.generatedSchemaFiles.map (fun p => "export * from '" ++ p ++ "';"))),
       (pjoin out "schemas/objects/index.ts", String.intercalate "\r\n"
          (st.generatedSchemaObjectFiles.map (fun p => "export * from '" ++ p ++ "';"))),
       (pjoin out "schemas/enums/index.ts", String.intercalate "\r\n"
          (st.generatedSchemaEnumFiles.map (fun p => "export * from '" ++ p ++ "';")))] ∧
    generateIndexFiles cfg out st =
      generateIndexFiles (mkDefaultCfg "grouped" validFileTypes) out st ∧
    (printIndex st out .SCHEMA_ENUMS).1 = pjoin out "schemas/enums/index.ts" ∧
    (resolveIndexPath (mkDefaultCfg "flat" validFileTypes) "enum" none).filePath =
      "schemas/index.ts" ∧
    (resolveIndexPath (mkDefaultCfg "grouped" validFileTypes) "enum" none).filePath =
      "schemas/enums/index.ts" := by
  refine ⟨rfl, rfl, rfl, by decide, by decide⟩

/-- Inversion for `validateJoiGeneratorConfig`: a successful validation means
the whitelist check, the empty-enabled-set check and the directory-name check
all passed. -/
theorem validateJoiGeneratorConfig_ok_inv (cfg : RawJoiGeneratorConfig)
    (v : ValidatedJoiGeneratorConfig) (h : validateJoiGeneratorConfig cfg = .ok v) :
    ¬ (cfg.filterStrategy.getD "selective" = "whitelist" ∧
        (cfg.includeTypes = none ∨ cfg.includeTypes = some [])) ∧
    (computeEnabledTypes (cfg.filterStrategy.getD "selective") (cfg.includeTypes.getD [])
        (cfg.excludeTypes.getD []) (cfg.fileTypes.getD defaultFileTypes)).length ≠ 0 ∧
    (cfg.directories.getD []).find? (fun e => e.2 ≠ "" ∧ ¬ dirNameOk e.2) = none := by
  unfold validateJoiGeneratorConfig at h
  simp only [] at h
  split at h
  · simp at h
  split at h
  · simp at h
  split at h
  · simp at h
  split at h
  · simp at h
  split at h
  · simp at h
  rename_i hw
  split at h
  · simp at h
  split at h
  · simp at h
  rename_i hlen
  split at h
  · simp at h
  rename_i heq
  exact ⟨hw, hlen, heq⟩

/-- C7: configuration validation rejects a whitelist strategy whose include
list is absent or empty, an empty computed enabled-kind set, and any
directory-name override containing a character outside the allowed class;
`parseBooleanString` accepts exactly true/1/yes and false/0/no
case-insensitively after trimming (so "TRUE" parses to true) and rejects
every other string. -/
theorem config_validation_spec :
    (∀ cfg : RawJoiGeneratorConfig, cfg.filterStrategy = some "whitelist" →
      (cfg.includeTypes = none ∨ cfg.includeTypes = some []) →
      ∃ e, validateJoiGeneratorConfig cfg = .error e) ∧
    (∀ cfg : RawJoiGeneratorConfig,
      computeEnabledTypes (cfg.filterStrategy.getD "selective") (cfg.includeTypes.getD [])
        (cfg.excludeTypes.getD []) (cfg.fileTypes.getD defaultFileTypes) = [] →
      ∃ e, validateJoiGeneratorConfig cfg = .error e) ∧
    (∀ cfg : RawJoiGeneratorConfig, ∀ kv, kv ∈ cfg.directories.getD [] →
      kv.2 ≠ "" → ¬ kv.2.toList.all isDirChar = true →
      ∃ e, validateJoiGeneratorConfig cfg = .error e) ∧
    (∀ v, parseBooleanString v = .ok true ↔ jsTrim (jsToLower v) ∈ ["true", "1", "yes"]) ∧
    (∀ v, parseBooleanString v = .ok false ↔ jsTrim (jsToLower v) ∈ ["false", "0", "no"]) ∧
    (∀ v, (∃ e, parseBooleanString v = .error e) ↔
      (jsTrim (jsToLower v) ∉ ["true", "1", "yes"] ∧
       jsTrim (jsToLower v) ∉ ["false", "0", "no"])) ∧
    parseBooleanString "TRUE" = .ok true := by
  refine ⟨?_, ?_, ?_, ?_, ?_, ?_, rfl⟩
  · intro cfg h1 h2
    cases hE : validateJoiGeneratorConfig cfg with
    | error e => exact ⟨e, rfl⟩
    | ok v =>
      exact absurd ⟨by simp [h1], h2⟩ (validateJoiGeneratorConfig_ok_inv cfg v hE).1
  · intro cfg h1
    cases hE : validateJoiGeneratorConfig cfg with
    | error e => exact ⟨e, rfl⟩
    | ok v =>
      exact absurd (by simp [h1]) (validateJoiGeneratorConfig_ok_inv cfg v hE).2.1
  · intro cfg kv hmem hne hbad
    cases hE : validateJoiGeneratorConfig cfg with
    | error e => exact ⟨e, rfl⟩
    | ok v =>
      have hnone := (validateJoiGeneratorConfig_ok_inv cfg v hE).2.2
      rw [List.find?_eq_none] at hnone
      refine absurd ?_ (hnone kv hmem)
      simp only [dirNameOk, decide_eq_true_eq, ne_eq, Bool.not_eq_true]
      refine ⟨hne, ?_⟩
      simp only [decide_eq_false_iff_not, not_and]
      intro _
      exact hbad
  · intro v
    simp only [parseBooleanString]
    split
    · rename_i hc
      simp only [List.mem_cons, List.not_mem_nil, or_false]
      exact ⟨fun _ => hc, fun _ => trivial⟩
    split
    · rename_i hc1 hc2
      simp only [List.mem_cons, List.not_mem_nil, or_false]
      constructor
      · intro h; simp at h
      · intro h; exact absurd h hc1
    · rename_i hc1 hc2
      simp only [List.mem_cons, List.not_mem_nil, or_false]
      constructor
      · intro h; simp at h
      · intro h; exact absurd h hc1
  · intro v
    simp only [parseBooleanString]
    split
    · rename_i hc
      simp only [List.mem_cons, List.not_mem_nil, or_false]
      constructor
      · intro h; simp at h
      · intro h
        rcases hc with hc | hc | hc <;> rcases h with h | h | h <;> simp_all
    split
    · rename_i hc1 hc2
      simp only [List.mem_cons, List.not_mem_nil, or_false]
      exact ⟨fun _ => hc2, fun _ => trivial⟩
    · rename_i hc1 hc2
      simp only [List.mem_cons, List.not_mem_nil, or_false]
      constructor
      · intro h; simp at h
      · intro h; exact absurd h hc2
  · intro v
    simp only [parseBooleanString]
    split
    · rename_i hc
      simp only [List.mem_cons, List.not_mem_nil, or_false]
      constructor
      · rintro ⟨e, h⟩; simp at h
      · rintro ⟨h1, _⟩; exact absurd hc h1
    split
    · rename_i hc1 hc2
      simp only [List.mem_cons, List.not_mem_nil, or_false]
      constructor
      · rintro ⟨e, h⟩; simp at h
      · rintro ⟨_, h2⟩; exact absurd hc2 h2
    · rename_i hc1 hc2
      simp only [List.mem_cons, List.not_mem_nil, or_false]
      exact ⟨fun _ => ⟨hc1, hc2⟩, fun _ => ⟨_, rfl⟩⟩

/-- C7 witness: whitelist with empty include list, selective with the single
flag false (empty enabled set), and a base-directory override containing a
space all fail; mixed-case "TRUE" was already covered by the closed final
conjunct of the theorem. -/
theorem config_validation_spec_witness :
    (∃ e, validateJoiGeneratorConfig
      { filterStrategy := some "whitelist", includeTypes := some [] } = .error e) ∧
    (∃ e, validateJoiGeneratorConfig { fileTypes := some [("create", false)] } = .error e) ∧
    (∃ e, validateJoiGeneratorConfig
      { directories := some [("base", "my schemas")] } = .error e) :=
  ⟨config_validation_spec.1 _ rfl (Or.inr rfl),
   config_validation_spec.2.1 _ (by decide),
   config_validation_spec.2.2.1 _ ("base", "my schemas") (by decide) (by decide) (by decide)⟩

/-- Membership after a JavaScript `Set.add`. -/
theorem mem_jsSetAdd {l : List String} {x y : String} :
    y ∈ jsSetAdd l x ↔ y ∈ l ∨ y = x := by
  unfold jsSetAdd
  split
  · rename_i hx
    constructor
    · exact Or.inl
    · rintro (h | rfl)
      · exact h
      · exact hx
  · simp

/-- `altStep` never records the current type name as an import (the
self-reference guard). -/
theorem altStep_not_mem_self (tname : String) (enumNames : List String)
    (field : SchemaArg) (n : Nat) (acc : List String × List String)
    (c : SchemaArgInputType) (h : tname ∉ acc.2) :
    tname ∉ (altStep tname enumNames field n acc c).2 := by
  unfold altStep
  split
  · exact h
  split
  · exact h
  split
  · exact h
  split
  · split
    · rename_i hne
      simp only [mem_jsSetAdd]
      rintro (hmem | rfl)
      · exact h hmem
      · exact hne rfl
    · exact h
  split
  · exact h
  · exact h

/-- The multi-candidate fold never records the current type name. -/
theorem altFold_not_mem_self (tname : String) (enumNames : List String)
    (field : SchemaArg) (n : Nat) (cs : List SchemaArgInputType) :
    ∀ acc : List String × List String, tname ∉ acc.2 →
      tname ∉ (cs.foldl (altStep tname enumNames field n) acc).2 := by
  induction cs with
  | nil => intro acc h; exact h
  | cons c cs ih =>
    intro acc h
    exact ih _ (altStep_not_mem_self tname enumNames field n acc c h)

/-- `getSchemaObjectLine` never records the current type name as an import. -/
theorem getSchemaObjectLine_not_mem_self (tname : String) (enumNames : List String)
    (imports : List String) (field : SchemaArg) (h : tname ∉ imports) :
    tname ∉ (getSchemaObjectLine tname enumNames imports field).2 := by
  unfold getSchemaObjectLine
  split
  · exact h
  · split
    · exact h
    split
    · exact h
    split
    · exact h
    split
    · exact h
    split
    · split
      · rename_i hne
        simp only [mem_jsSetAdd]
        rintro (hmem | rfl)
        · exact h hmem
        · exact hne rfl
      · exact h
    · exact h
  · dsimp only
    split
    · exact altFold_not_mem_self tname enumNames field _ _ _ h
    · exact altFold_not_mem_self tname enumNames field _ _ _ h

/-- `processFields` never records the current type name as an import. -/
theorem processFields_not_mem_self (tname : String) (enumNames : List String)
    (fields : List SchemaArg) :
    ∀ imports : List String, tname ∉ imports →
      tname ∉ (processFields tname enumNames fields imports).2 := by
  induction fields with
  | nil => intro imports h; exact h
  | cons f fs ih =>
    intro imports h
    unfold processFields mapFieldOutputs
    exact ih _ (getSchemaObjectLine_not_mem_self tname enumNames imports f h)

/-- C5: a prisma-namespace candidate naming the type currently being emitted
routes through the recursive-link path: the emitted expression is a lazy
`Joi.link` back to the type (array-wrapped when the candidate is a list),
both in the single-candidate mapping and as an alternation branch, and the
type name is never added to its own tracked import set by any field. -/
theorem self_reference_emits_lazy_link :
    (∀ (tname : String) (enumNames : List String) (fields : List SchemaArg)
        (imports : List String), tname ∉ imports →
      tname ∉ (processFields tname enumNames fields imports).2) ∧
    (∀ (tname : String) (enums imports : List String) (f : SchemaArg)
        (c : SchemaArgInputType), f.inputTypes = [c] → c.nspace = some "prisma" →
      c.type = tname → c.type ≠ "String" → c.type ≠ "Int" → c.type ≠ "Float" →
      c.type ≠ "Boolean" → c.type ≠ "DateTime" →
      mapFieldOutputs tname enums imports f =
        ([if c.isList then "  " ++ f.name ++ ": Joi.array().items(Joi.link('#" ++ tname ++ "'))"
          else "  " ++ f.name ++ ": Joi.link('#" ++ tname ++ "')"], imports)) ∧
    (∀ (tname : String) (enums : List String) (f : SchemaArg) (c : SchemaArgInputType)
        (n : Nat), 2 ≤ n → c.type = tname →
      getPrismaStringLine tname enums f c n =
        (if c.isList then "Joi.array().items(Joi.link('#" ++ tname ++ "'))"
         else "Joi.link('#" ++ tname ++ "')")) := by
  refine ⟨?_, ?_, ?_⟩
  · intro tname enumNames fields imports h
    exact processFields_not_mem_self tname enumNames fields imports h
  · intro tname enums imports f c hin hns hself hS hI hF hB hD
    subst hself
    unfold mapFieldOutputs getSchemaObjectLine
    rw [hin]
    simp only [hS, hI, hF, hB, hD, hns, if_false, ite_false, ne_eq, reduceIte, or_self,
      not_true_eq_false, List.filterMap, List.map]
    simp [getPrismaStringLine]
  · intro tname enums f c n hn hself
    subst hself
    unfold getPrismaStringLine
    rw [if_neg (by omega), if_pos (by omega)]
    simp

/-- C5 witness: emitting `UserWhereInput` whose `AND` field lists
`UserWhereInput` itself (a list candidate) produces the array-wrapped lazy
link and leaves the import set free of the type's own name. -/
theorem self_reference_emits_lazy_link_witness :
    "UserWhereInput" ∉ (processFields "UserWhereInput" []
      [{ name := "AND", isRequired := false, isNullable := false,
         inputTypes := [{ isList := true, type := "UserWhereInput",
                          nspace := some "prisma" }] }] []).2 ∧
    mapFieldOutputs "UserWhereInput" [] []
      { name := "AND", isRequired := false, isNullable := false,
        inputTypes := [{ isList := true, type := "UserWhereInput",
                         nspace := some "prisma" }] } =
      (["  AND: Joi.array().items(Joi.link('#UserWhereInput'))"], []) ∧
    getPrismaStringLine "UserWhereInput" []
      { name := "NOT", isRequired := false, isNullable := false,
        inputTypes := [] }
      { isList := false, type := "UserWhereInput", nspace := some "prisma" } 2 =
      "Joi.link('#UserWhereInput')" :=
  ⟨self_reference_emits_lazy_link.1 "UserWhereInput" []
      [{ name := "AND", isRequired := false, isNullable := false,
         inputTypes := [{ isList := true, type := "UserWhereInput",
                          nspace := some "prisma" }] }] [] (by decide),
   self_reference_emits_lazy_link.2.1 "UserWhereInput" [] []
      { name := "AND", isRequired := false, isNullable := false,
        inputTypes := [{ isList := true, type := "UserWhereInput",
                         nspace := some "prisma" }] }
      { isList := true, type := "UserWhereInput", nspace := some "prisma" }
      rfl rfl rfl (by decide) (by decide) (by decide) (by decide) (by decide),
   self_reference_emits_lazy_link.2.2 "UserWhereInput" []
      { name := "NOT", isRequired := false, isNullable := false, inputTypes := [] }
      { isList := false, type := "UserWhereInput", nspace := some "prisma" } 2
      (by decide) rfl⟩

/-- C6 counterexample: a field with exactly one candidate that is a
prisma-namespace object reference has `isRequired = true`, yet the produced
expression carries no `.required()` marker — the single-candidate line is
tagged skip-validators, so the claim's "exactly one candidate" iff fails
(only scalar candidates receive the markers). -/
theorem single_prisma_candidate_skips_required_marker :
    (mapFieldOutputs "SomeArgs" [] []
      { name := "where", isRequired := true, isNullable := false,
        inputTypes := [{ isList := false, type := "UserWhereInput",
                         nspace := some "prisma" }] }).1 =
      ["  where: Joi.object().keys(UserWhereInputSchemaObject)"] ∧
    ¬ (".required()".toList <:+:
        "  where: Joi.object().keys(UserWhereInputSchemaObject)".toList) := by
  decide

/-- C6 as amended: for a field with exactly one candidate of a recognized
scalar type, `.required()` is appended iff `isRequired` and `.allow(null)`
iff `isNullable`; a single prisma-namespace (object/enum) candidate skips the
markers entirely, whatever the flags; and a field with two or more candidates
yields either nothing or the bare alternation wrapper, independent of the
required/nullable flags. -/
theorem required_nullable_markers_spec :
    (∀ (tname : String) (enums imports : List String) (f : SchemaArg)
        (c : SchemaArgInputType), f.inputTypes = [c] →
      (c.type = "String" ∨ c.type = "Int" ∨ c.type = "Float" ∨ c.type = "Boolean" ∨
        c.type = "DateTime") →
      (mapFieldOutputs tname enums imports f).1 =
        [("  " ++ f.name ++ ": " ++
          (if c.type = "String" then
            (if c.isList then "Joi.array().items(Joi.string())" else "Joi.string()")
           else if c.type = "Int" ∨ c.type = "Float" then
            (if c.isList then "Joi.array().items(Joi.number())" else "Joi.number()")
           else if c.type = "Boolean" then
            (if c.isList then "Joi.array().items(Joi.boolean())" else "Joi.boolean()")
           else (if c.isList then "Joi.array().items(Joi.date())" else "Joi.date()"))) ++
          (if f.isRequired then ".required()" else "") ++
          (if f.isNullable then ".allow(null)" else "")]) ∧
    (∀ (tname : String) (enums imports : List String) (f : SchemaArg)
        (c : SchemaArgInputType), f.inputTypes = [c] → c.nspace = some "prisma" →
      c.type ≠ "String" → c.type ≠ "Int" → c.type ≠ "Float" → c.type ≠ "Boolean" →
      c.type ≠ "DateTime" →
      (mapFieldOutputs tname enums imports f).1 = [getPrismaStringLine tname enums f c 1]) ∧
    (∀ (tname : String) (enums imports : List String) (nm : String) (r nl r' nl' : Bool)
        (c : SchemaArgInputType), c.nspace = some "prisma" →
      c.type ≠ "String" → c.type ≠ "Int" → c.type ≠ "Float" → c.type ≠ "Boolean" →
      c.type ≠ "DateTime" →
      (mapFieldOutputs tname enums imports ⟨nm, r, nl, [c]⟩).1 =
        (mapFieldOutputs tname enums imports ⟨nm, r', nl', [c]⟩).1) ∧
    (∀ (tname : String) (enums imports : List String) (f : SchemaArg),
      2 ≤ f.inputTypes.length →
      ((mapFieldOutputs tname enums imports f).1 = [] ∨
       (mapFieldOutputs tname enums imports f).1 =
         ["  " ++ f.name ++ ": Joi.alternatives().try(" ++ String.intercalate ",\r\n"
           (f.inputTypes.foldl (altStep tname enums f f.inputTypes.length)
             ([], imports)).1 ++ ")"])) ∧
    (∀ (tname : String) (enums imports : List String) (nm : String) (r nl r' nl' : Bool)
        (its : List SchemaArgInputType), 2 ≤ its.length →
      (mapFieldOutputs tname enums imports ⟨nm, r, nl, its⟩).1 =
        (mapFieldOutputs tname enums imports ⟨nm, r', nl', its⟩).1) := by
  refine ⟨?_, ?_, ?_, ?_, ?_⟩
  · intro tname enums imports f c hin hc
    unfold mapFieldOutputs getSchemaObjectLine
    rw [hin]
    rcases hc with hc | hc | hc | hc | hc <;>
      simp [hc, getFieldValidators, String.append_assoc]
  · intro tname enums imports f c hin hns hS hI hF hB hD
    unfold mapFieldOutputs getSchemaObjectLine
    rw [hin]
    simp only [hS, hI, hF, hB, hD, hns, if_false, ite_false, ne_eq, reduceIte, or_self,
      not_true_eq_false]
    simp
  · intro tname enums imports nm r nl r' nl' c hns hS hI hF hB hD
    unfold mapFieldOutputs getSchemaObjectLine
    simp only [hS, hI, hF, hB, hD, hns, if_false, ite_false, ne_eq, reduceIte, or_self,
      not_true_eq_false]
    simp [getPrismaStringLine]
  · intro tname enums imports f hlen
    rcases hin : f.inputTypes with _ | ⟨c1, _ | ⟨c2, rest⟩⟩
    · rw [hin] at hlen; simp at hlen
    · rw [hin] at hlen; simp at hlen
    unfold mapFieldOutputs getSchemaObjectLine
    rw [hin]
    dsimp only
    split
    · right; simp
    · left; simp
  · intro tname enums imports nm r nl r' nl' its hlen
    rcases its with _ | ⟨c1, _ | ⟨c2, rest⟩⟩
    · simp at hlen
    · simp at hlen
    unfold mapFieldOutputs getSchemaObjectLine
    have halt : altStep tname enums ⟨nm, r, nl, c1 :: c2 :: rest⟩ =
        altStep tname enums ⟨nm, r', nl', c1 :: c2 :: rest⟩ := by
      funext n acc c
      rfl
    dsimp only
    rw [halt]
    split <;> simp

/-- C6 witness: a required-and-nullable scalar field receives both markers, a
required prisma-namespace reference receives none, and a two-candidate field
yields the bare alternation whatever its flags.  (Fields are written
positionally: name, isRequired, isNullable, candidates.) -/
theorem required_nullable_markers_spec_witness :
    (mapFieldOutputs "X" [] []
        (⟨"v", true, true, [⟨false, "String", none⟩]⟩ : SchemaArg)).1 =
      ["  v: Joi.string().required().allow(null)"] ∧
    (mapFieldOutputs "SomeArgs" [] []
        (⟨"where", true, false, [⟨false, "UserWhereInput", some "prisma"⟩]⟩ :
          SchemaArg)).1 =
      ["  where: Joi.object().keys(UserWhereInputSchemaObject)"] ∧
    (mapFieldOutputs "X" [] []
        (⟨"w", true, true, [⟨false, "AWhereInput", some "prisma"⟩]⟩ : SchemaArg)).1 =
      (mapFieldOutputs "X" [] []
        (⟨"w", false, false, [⟨false, "AWhereInput", some "prisma"⟩]⟩ : SchemaArg)).1 ∧
    (mapFieldOutputs "X" [] []
        (⟨"v", true, true, [⟨false, "String", none⟩, ⟨false, "Int", none⟩]⟩ :
          SchemaArg)).1 =
      ["  v: Joi.alternatives().try(Joi.string(),\r\nJoi.number())"] ∧
    (mapFieldOutputs "X" [] []
        (⟨"v", true, true, [⟨false, "String", none⟩, ⟨false, "Int", none⟩]⟩ :
          SchemaArg)).1 =
      (mapFieldOutputs "X" [] []
        (⟨"v", false, false, [⟨false, "String", none⟩, ⟨false, "Int", none⟩]⟩ :
          SchemaArg)).1 :=
  ⟨(required_nullable_markers_spec.1 "X" [] []
      ⟨"v", true, true, [⟨false, "String", none⟩]⟩
      ⟨false, "String", none⟩ rfl (Or.inl rfl)).trans (by decide),
   (required_nullable_markers_spec.2.1 "SomeArgs" [] []
      ⟨"where", true, false, [⟨false, "UserWhereInput", some "prisma"⟩]⟩
      ⟨false, "UserWhereInput", some "prisma"⟩
      rfl rfl (by decide) (by decide) (by decide) (by decide) (by decide)).trans
      (by decide),
   required_nullable_markers_spec.2.2.1 "X" [] [] "w" true true false false
      ⟨false, "AWhereInput", some "prisma"⟩ rfl (by decide) (by decide) (by decide)
      (by decide) (by decide),
   ((required_nullable_markers_spec.2.2.2.1 "X" [] []
      ⟨"v", true, true, [⟨false, "String", none⟩, ⟨false, "Int", none⟩]⟩
      (by decide)).resolve_left (by decide)).trans (by decide),
   required_nullable_markers_spec.2.2.2.2 "X" [] [] "v" true true false false
      [⟨false, "String", none⟩, ⟨false, "Int", none⟩] (by decide)⟩

/-- `find?` returns the designated element when it satisfies the predicate
and is the only element of the list doing so. -/
theorem find_eq_some_of_unique {α : Type} (l : List α) (cond : α → Bool) (p : α)
    (hp : p ∈ l) (hcp : cond p = true) (huniq : ∀ q ∈ l, cond q = true → q = p) :
    l.find? cond = some p := by
  induction l with
  | nil => cases hp
  | cons a l ih =>
    by_cases ha : cond a = true
    · have : a = p := huniq a (List.mem_cons_self a l) ha
      subst this
      simp [List.find?_cons_of_pos _ ha]
    · have hpl : p ∈ l := by
        rcases List.mem_cons.mp hp with rfl | h
        · exact absurd hcp ha
        · exact h
      rw [List.find?_cons_of_neg _ (by simpa using ha)]
      exact ih hpl (fun q hq => huniq q (List.mem_cons_of_mem a hq))

/-- No operation name in the first pattern's alternation is a prefix of
another, so at most one can match a given artifact name. -/
theorem opPrefixes_pairwise_distinct_starts :
    ∀ q ∈ opPrefixes, ∀ q' ∈ opPrefixes, q.toList <+: q'.toList → q = q' := by decide

/-- Every marker alternative of the second pattern is nonempty. -/
theorem inputTypeMarkers_ne_nil : ∀ m ∈ inputTypeMarkers, m.toList ≠ [] := by decide

/-- The split search of the second pattern fails when no marker occurs at any
position past the start. -/
theorem findMarkerSplit_none (rest : List Char) :
    ∀ pre, (∀ i, ∀ m ∈ inputTypeMarkers, ¬ m.toList <+: rest.drop (i + 1)) →
      findMarkerSplit pre rest = none := by
  induction rest with
  | nil => intro pre _; rfl
  | cons c cs ih =>
    intro pre h
    unfold findMarkerSplit
    have hany : (inputTypeMarkers.any (fun m => m.toList.isPrefixOf cs)) = false := by
      rw [List.any_eq_false]
      intro m hm
      have hmc := h 0 m hm
      simp only [List.drop_succ_cons, List.drop_zero] at hmc
      simp only [List.isPrefixOf_iff_prefix]
      exact fun hcon => hmc hcon
    rw [if_neg (by rw [hany]; exact Bool.false_ne_true)]
    apply ih
    intro i m hm
    have := h (i + 1) m hm
    simpa using this

/-- C8: `extractModelName` tries its patterns in a fixed order with the first
match winning — an operation-name prefix yields the trailing model name (in
general, for every operation prefix and nonempty remainder), a known
input-type marker yields the leading model name, a trailing `Schema` is
stripped, the first pattern wins over the later ones, and a name matching no
pattern yields `none` rather than an error. -/
theorem extractModelName_spec :
    (∀ p, p ∈ opPrefixes → ∀ rest : List Char, rest ≠ [] →
      extractModelName (String.mk (p.toList ++ rest)) = some (String.mk rest)) ∧
    extractModelName "findManyPost" = some "Post" ∧
    extractModelName "UserCreateInput" = some "User" ∧
    extractModelName "PostSchema" = some "Post" ∧
    extractModelName "findManyUserCreateInput" = some "UserCreateInput" ∧
    extractModelName "IntFilter" = none ∧
    (∀ name : String,
      (∀ p ∈ opPrefixes, ¬ (p.toList <+: name.toList ∧
        p.toList.length < name.toList.length)) →
      (∀ i, i < name.toList.length → 1 ≤ i → ∀ m ∈ inputTypeMarkers,
        ¬ m.toList <+: name.toList.drop i) →
      ¬ ("Schema".toList <:+ name.toList ∧ 6 < name.toList.length) →
      extractModelName name = none) := by
  refine ⟨?_, by decide, by decide, by decide, by decide, by decide, ?_⟩
  · intro p hp rest hrest
    unfold extractModelName matchOpPattern
    dsimp only
    rw [show (String.mk (p.toList ++ rest)).toList = p.toList ++ rest from rfl]
    have hfind : opPrefixes.find? (fun q => q.toList.isPrefixOf (p.toList ++ rest) ∧
        q.toList.length < (p.toList ++ rest).length) = some p := by
      apply find_eq_some_of_unique _ _ p hp
      · simp [List.isPrefixOf_iff_prefix, List.prefix_append, List.length_append]
        exact List.length_pos.mpr hrest
      · intro q hq hcond
        have hcond' : q.toList <+: p.toList ++ rest ∧
            q.toList.length < (p.toList ++ rest).length := by
          simpa [List.isPrefixOf_iff_prefix] using hcond
        rcases List.prefix_or_prefix_of_prefix hcond'.1
          (List.prefix_append p.toList rest) with h | h
        · exact opPrefixes_pairwise_distinct_starts q hq p hp h
        · exact (opPrefixes_pairwise_distinct_starts p hp q hq h).symm
    rw [hfind]
    simp [List.drop_left]
  · intro name h1 h2 h3
    unfold extractModelName
    dsimp only
    have hop : matchOpPattern name.toList = none := by
      unfold matchOpPattern
      rw [List.find?_eq_none.mpr ?_]
      · rfl
      intro q hq
      simp only [List.isPrefixOf_iff_prefix, decide_eq_true_eq, Bool.and_eq_true, not_and]
      intro hpre hlen
      exact h1 q hq ⟨by simpa [List.isPrefixOf_iff_prefix] using hpre, by simpa using hlen⟩
    have hmark : matchMarkerPattern name.toList = none := by
      unfold matchMarkerPattern
      apply findMarkerSplit_none
      intro i m hm
      by_cases hlt : i + 1 < name.toList.length
      · exact h2 (i + 1) hlt (by omega) m hm
      · have hdrop : name.toList.drop (i + 1) = [] := List.drop_eq_nil_of_le (by omega)
        rw [hdrop]
        intro hcon
        exact inputTypeMarkers_ne_nil m hm (List.prefix_nil.mp hcon)
    have hsch : matchSchemaSuffix name.toList = none := by
      unfold matchSchemaSuffix
      rw [if_neg]
      simp only [List.isSuffixOf_iff_suffix, decide_eq_true_eq, Bool.and_eq_true, not_and]
      intro hsuf hlen
      exact h3 ⟨by simpa [List.isSuffixOf_iff_suffix] using hsuf, by simpa using hlen⟩
    rw [hop, hmark, hsch]
    rfl

/-- C8 witness: the general prefix part at findUnique + User, and the general
no-match part at the concrete unmatched name Color. -/
theorem extractModelName_spec_witness :
    extractModelName "findUniqueUser" = some "User" ∧
    extractModelName "Color" = none :=
  ⟨extractModelName_spec.1 "findUnique" (by decide) "User".toList (by decide),
   extractModelName_spec.2.2.2.2.2.2 "Color" (by decide) (by decide) (by decide)⟩

/-- C9 counterexample: under the by-model strategy with objects and enums
enabled, a model-less object artifact (such as the scalar filter IntFilter,
whose name yields no model association) resolves to the grouped fallback
directory `schemas/objects`, but `getRequiredDirectories` does not include
that directory. -/
theorem getRequiredDirectories_misses_fallback_objects_dir :
    (resolvePath (mkDefaultCfg "by-model" ["enums", "objects"])
      { type := "objects", fileName := "IntFilter", modelName := none,
        category := "object" }).directory = "schemas/objects" ∧
    "schemas/objects" ∉
      getRequiredDirectories (mkDefaultCfg "by-model" ["enums", "objects"]) ["User"] ∧
    extractModelName "IntFilter" = none := by
  decide

/-- `jsSetAdd` preserves freedom from duplicates. -/
theorem jsSetAdd_nodup {l : List String} {x : String} (h : l.Nodup) :
    (jsSetAdd l x).Nodup := by
  unfold jsSetAdd
  split
  · exact h
  · rename_i hx
    simpa [List.nodup_append] using ⟨h, hx⟩

theorem mem_jsSetAdd_self (l : List String) (x : String) : x ∈ jsSetAdd l x :=
  mem_jsSetAdd.mpr (Or.inr rfl)

theorem mem_jsSetAdd_of_mem {l : List String} {y : String} (h : y ∈ l) (x : String) :
    y ∈ jsSetAdd l x :=
  mem_jsSetAdd.mpr (Or.inl h)

/-- A fold whose step only ever inserts preserves membership. -/
theorem foldl_mem_mono {β : Type} (g : List String → β → List String)
    (hg : ∀ dirs m y, y ∈ dirs → y ∈ g dirs m) :
    ∀ (ms : List β) (dirs : List String) (y : String), y ∈ dirs → y ∈ ms.foldl g dirs := by
  intro ms
  induction ms with
  | nil => intro dirs y h; exact h
  | cons m ms ih => intro dirs y h; exact ih _ _ (hg dirs m y h)

/-- A fold whose step preserves `Nodup` preserves `Nodup`. -/
theorem foldl_nodup {β : Type} (g : List String → β → List String)
    (hg : ∀ dirs m, dirs.Nodup → (g dirs m).Nodup) :
    ∀ (ms : List β) (dirs : List String), dirs.Nodup → (ms.foldl g dirs).Nodup := by
  intro ms
  induction ms with
  | nil => intro dirs h; exact h
  | cons m ms ih => intro dirs h; exact ih _ (hg dirs m h)

/-- `byModelStep` only inserts. -/
theorem byModelStep_mono (cfg : ValidatedJoiGeneratorConfig) :
    ∀ (dirs : List String) (m : String) (y : String), y ∈ dirs → y ∈ byModelStep cfg dirs m := by
  intro dirs m y h
  unfold byModelStep
  dsimp only
  split
  · exact mem_jsSetAdd_of_mem (mem_jsSetAdd_of_mem h _) _
  · exact mem_jsSetAdd_of_mem h _

/-- `byModelStep` preserves `Nodup`. -/
theorem byModelStep_nodup (cfg : ValidatedJoiGeneratorConfig) :
    ∀ (dirs : List String) (m : String), dirs.Nodup → (byModelStep cfg dirs m).Nodup := by
  intro dirs m h
  unfold byModelStep
  dsimp only
  split
  · exact jsSetAdd_nodup (jsSetAdd_nodup h)
  · exact jsSetAdd_nodup h

/-- The by-model loop records each listed model's directory, and its objects
subdirectory when object kinds are enabled. -/
theorem foldl_byModelStep_mem (cfg : ValidatedJoiGeneratorConfig) (m : String) :
    ∀ (ms : List String) (dirs : List String), m ∈ ms →
      (pjoin (pjoin cfg.directories.base cfg.directories.models)
        (sanitizeDirectoryName m)) ∈ ms.foldl (byModelStep cfg) dirs ∧
      (hasObjectTypes cfg = true →
        pjoin (pjoin (pjoin cfg.directories.base cfg.directories.models)
          (sanitizeDirectoryName m)) cfg.directories.objects ∈
          ms.foldl (byModelStep cfg) dirs) := by
  intro ms
  induction ms with
  | nil => intro dirs h; cases h
  | cons a ms ih =>
    intro dirs h
    rcases List.mem_cons.mp h with rfl | hm
    · rw [List.foldl_cons]
      constructor
      · apply foldl_mem_mono _ (byModelStep_mono cfg)
        unfold byModelStep
        dsimp only
        split
        · exact mem_jsSetAdd_of_mem (mem_jsSetAdd_self _ _) _
        · exact mem_jsSetAdd_self _ _
      · intro hobj
        apply foldl_mem_mono _ (byModelStep_mono cfg)
        unfold byModelStep
        dsimp only
        rw [if_pos hobj]
        exact mem_jsSetAdd_self _ _
    · exact ih _ hm

/-- C9 as amended: `getRequiredDirectories` is duplicate-free, and it
contains the directory of every artifact an enabled kind emits under the
active strategy — for artifacts whose category matches their kind as the
generators use it, whose owning model (when present) is in the given model
list — except, under the by-model strategy, the grouped-fallback objects
directory of a model-less object artifact, which is excluded below and shown
missing by the counterexample (the file writer creates it on demand). -/
theorem getRequiredDirectories_spec :
    (∀ (cfg : ValidatedJoiGeneratorConfig) (modelNames : List String),
      (getRequiredDirectories cfg modelNames).Nodup) ∧
    (∀ (cfg : ValidatedJoiGeneratorConfig) (modelNames : List String) (fi : FileInfo),
      (cfg.directoryStrategy = "flat" ∨ cfg.directoryStrategy = "grouped" ∨
        cfg.directoryStrategy = "by-model") →
      fi.type ∈ cfg.enabledTypes →
      ((fi.category = "enum" ∧ fi.type = "enums") ∨
        (fi.category = "object" ∧ fi.type = "objects") ∨ fi.category = "schema") →
      (∀ m, fi.modelName = some m → m ∈ modelNames) →
      ¬ (cfg.directoryStrategy = "by-model" ∧ fi.category = "object" ∧
          fi.modelName = none) →
      (resolvePath cfg fi).directory ∈ getRequiredDirectories cfg modelNames) := by
  constructor
  · intro cfg modelNames
    unfold getRequiredDirectories
    dsimp only
    have h0 : (jsSetAdd [] cfg.directories.base).Nodup := jsSetAdd_nodup List.nodup_nil
    split
    · exact h0
    split
    · split <;> split <;> first
        | exact jsSetAdd_nodup (jsSetAdd_nodup h0)
        | exact jsSetAdd_nodup h0
        | exact h0
    split
    · apply foldl_nodup _ (byModelStep_nodup cfg)
      split
      · exact jsSetAdd_nodup h0
      · exact h0
    · exact h0
  · intro cfg modelNames fi hstrat htype hcat hmodel hbad
    have hbase : cfg.directories.base ∈ jsSetAdd [] cfg.directories.base :=
      mem_jsSetAdd_self _ _
    have hgf : ¬ (("grouped" : String) = "flat") := by decide
    have hbf : ¬ (("by-model" : String) = "flat") := by decide
    have hbg : ¬ (("by-model" : String) = "grouped") := by decide
    have hoe : ¬ (("object" : String) = "enum") := by decide
    have hse : ¬ (("schema" : String) = "enum") := by decide
    have hso : ¬ (("schema" : String) = "object") := by decide
    unfold resolvePath getRequiredDirectories
    dsimp only
    rcases hstrat with hs | hs | hs
    · rw [hs, if_pos rfl, if_pos rfl]
      unfold resolveFlatPath
      dsimp only
      exact hbase
    · rw [hs, if_neg hgf, if_neg hgf, if_pos rfl, if_pos rfl]
      unfold resolveGroupedPath
      dsimp only
      rcases hcat with ⟨hc, ht⟩ | ⟨hc, ht⟩ | hc
      · have htype' : "enums" ∈ cfg.enabledTypes := ht ▸ htype
        rw [hc, if_pos rfl, if_pos htype']
        dsimp only
        split
        · exact mem_jsSetAdd_of_mem (mem_jsSetAdd_self _ _) _
        · exact mem_jsSetAdd_self _ _
      · have htype' : "objects" ∈ cfg.enabledTypes := ht ▸ htype
        have hobj : hasObjectTypes cfg = true := by
          simp only [hasObjectTypes, List.any_eq_true]
          exact ⟨"objects", by decide, by simpa using htype'⟩
        rw [hc, if_neg hoe, if_pos rfl, hobj, if_pos rfl]
        dsimp only
        split
        · exact mem_jsSetAdd_self _ _
        · exact mem_jsSetAdd_self _ _
      · rw [hc, if_neg hse, if_neg hso]
        dsimp only
        split
        · split
          · exact mem_jsSetAdd_of_mem (mem_jsSetAdd_of_mem hbase _) _
          · exact mem_jsSetAdd_of_mem hbase _
        · split
          · exact mem_jsSetAdd_of_mem hbase _
          · exact hbase
    · rw [hs, if_neg hbf, if_neg hbf, if_neg hbg, if_neg hbg, if_pos rfl, if_pos rfl]
      unfold resolveByModelPath
      rcases hmn : fi.modelName with _ | m
      · unfold resolveGroupedPath
        dsimp only
        rcases hcat with ⟨hc, ht⟩ | ⟨hc, ht⟩ | hc
        · have htype' : "enums" ∈ cfg.enabledTypes := ht ▸ htype
          rw [hc, if_pos rfl, if_pos htype']
          dsimp only
          apply foldl_mem_mono _ (byModelStep_mono cfg)
          exact mem_jsSetAdd_self _ _
        · exact absurd ⟨hs, hc, hmn⟩ hbad
        · rw [hc, if_neg hse, if_neg hso]
          dsimp only
          apply foldl_mem_mono _ (byModelStep_mono cfg)
          split
          · exact mem_jsSetAdd_of_mem hbase _
          · exact hbase
      · have hm : m ∈ modelNames := hmodel m hmn
        dsimp only
        rcases hcat with ⟨hc, ht⟩ | ⟨hc, ht⟩ | hc
        · have htype' : "enums" ∈ cfg.enabledTypes := ht ▸ htype
          rw [hc, if_neg (show ¬ (("enum" : String) = "schema") from by decide),
            if_neg (show ¬ (("enum" : String) = "object") from by decide), if_pos rfl,
            if_pos htype']
          dsimp only
          apply foldl_mem_mono _ (byModelStep_mono cfg)
          exact mem_jsSetAdd_self _ _
        · have htype' : "objects" ∈ cfg.enabledTypes := ht ▸ htype
          have hobj : hasObjectTypes cfg = true := by
            simp only [hasObjectTypes, List.any_eq_true]
            exact ⟨"objects", by decide, by simpa using htype'⟩
          rw [hc, if_neg (show ¬ (("object" : String) = "schema") from by decide),
            if_pos rfl]
          dsimp only
          exact (foldl_byModelStep_mem cfg m modelNames _ hm).2 hobj
        · rw [hc, if_pos rfl]
          dsimp only
          exact (foldl_byModelStep_mem cfg m modelNames _ hm).1

/-- C9 witness: the grouped default configuration must pre-create the enums
directory for the Role enum module, and the by-model configuration must
pre-create the user model directory for a find operation of model User. -/
theorem getRequiredDirectories_spec_witness :
    (getRequiredDirectories (mkDefaultCfg "grouped" validFileTypes) ["User"]).Nodup ∧
    (resolvePath (mkDefaultCfg "grouped" validFileTypes)
        { type := "enums", fileName := "Role", modelName := none,
          category := "enum" }).directory ∈
      getRequiredDirectories (mkDefaultCfg "grouped" validFileTypes) ["User"] ∧
    (resolvePath (mkDefaultCfg "by-model" validFileTypes)
        { type := "find", fileName := "findUniqueUser", modelName := some "User",
          category := "schema" }).directory ∈
      getRequiredDirectories (mkDefaultCfg "by-model" validFileTypes) ["User"] :=
  ⟨getRequiredDirectories_spec.1 (mkDefaultCfg "grouped" validFileTypes) ["User"],
   getRequiredDirectories_spec.2 (mkDefaultCfg "grouped" validFileTypes) ["User"]
     { type := "enums", fileName := "Role", modelName := none, category := "enum" }
     (Or.inr (Or.inl rfl)) (by decide) (Or.inl ⟨rfl, rfl⟩)
     (fun m h => by cases h) (by decide),
   getRequiredDirectories_spec.2 (mkDefaultCfg "by-model" validFileTypes) ["User"]
     { type := "find", fileName := "findUniqueUser", modelName := some "User",
       category := "schema" }
     (Or.inr (Or.inr rfl)) (by decide) (Or.inr (Or.inr rfl))
     (fun m h => by cases h; exact List.mem_singleton.mpr rfl) (by decide)⟩

/-- The dependency edge of the enabled-restricted kind graph: both endpoints
enabled and the target declared as a dependency of the source. -/
def Edge (reg : Registry) (enabledL : List JoiFileType) (a b : JoiFileType) : Prop :=
  a ∈ enabledL ∧ b ∈ enabledL ∧ b ∈ depsOf reg a

/-- A dependency cycle among the enabled kinds. -/
def HasEnabledCycle (reg : Registry) (cfg : ValidatedJoiGeneratorConfig) : Prop :=
  ∃ t, Relation.TransGen (Edge reg (getEnabledTypes reg cfg)) t t

/-- A list is topologically ordered for the enabled dependency graph: every
member's enabled dependencies occur in it, strictly earlier. -/
def TopoOk (reg : Registry) (enabledL : List JoiFileType) (l : List JoiFileType) : Prop :=
  ∀ k, k ∈ l → ∀ d, d ∈ depsOf reg k → d ∈ enabledL →
    d ∈ l ∧ l.indexOf d < l.indexOf k

/-- The invariant the traversal maintains on the emitted part of the state:
`processed` mirrors `sorted`, `sorted` is duplicate-free, contains only
enabled kinds, and is topologically ordered. -/
def StInv (reg : Registry) (enabledL : List JoiFileType) (s : DfsState) : Prop :=
  s.processed = s.sorted.reverse ∧ s.sorted.Nodup ∧
  (∀ x ∈ s.sorted, x ∈ enabledL) ∧ TopoOk reg enabledL s.sorted

/-- Appending a fresh kind whose enabled dependencies are already present
preserves topological order. -/
theorem topoOk_append (reg : Registry) (enabledL : List JoiFileType)
    (l : List JoiFileType) (t : JoiFileType) (hl : TopoOk reg enabledL l) (ht : t ∉ l)
    (hdeps : ∀ d ∈ depsOf reg t, d ∈ enabledL → d ∈ l) :
    TopoOk reg enabledL (l ++ [t]) := by
  intro k hk d hd hden
  rcases List.mem_append.mp hk with hkl | hkt
  · obtain ⟨hdl, hidx⟩ := hl k hkl d hd hden
    refine ⟨List.mem_append.mpr (Or.inl hdl), ?_⟩
    rw [List.indexOf_append_of_mem hdl, List.indexOf_append_of_mem hkl]
    exact hidx
  · have hk_eq : k = t := by simpa using hkt
    subst hk_eq
    have hdl : d ∈ l := hdeps d hd hden
    refine ⟨List.mem_append.mpr (Or.inl hdl), ?_⟩
    rw [List.indexOf_append_of_mem hdl, List.indexOf_append_of_not_mem ht]
    exact Nat.lt_of_lt_of_le (List.indexOf_lt_length.mpr hdl) (Nat.le_add_right _ _)

/-- Postconditions of a successful `visitFold` pass, given them for `visit` at
the same fuel: invariant preserved, processing restored, sorted only extended
(new entries outside the entry processing set), and every followed kind
present in the final order. -/
theorem visitFold_ok_post_aux (reg : Registry) (enabledL : List JoiFileType) (fuel : Nat)
    (hvisit : ∀ (t : JoiFileType) (s s' : DfsState), t ∈ enabledL →
      StInv reg enabledL s → visit reg enabledL fuel t s = .ok s' →
      StInv reg enabledL s' ∧ s'.processing = s.processing ∧ s.sorted <+: s'.sorted ∧
      t ∈ s'.sorted ∧ (∀ x ∈ s'.sorted, x ∈ s.sorted ∨ x ∉ s.processing)) :
    ∀ (filtered : Bool) (ds : List JoiFileType) (s s' : DfsState),
      (filtered = false → ∀ d ∈ ds, d ∈ enabledL) → StInv reg enabledL s →
      visitFold enabledL filtered (visit reg enabledL fuel) ds s = .ok s' →
      StInv reg enabledL s' ∧ s'.processing = s.processing ∧ s.sorted <+: s'.sorted ∧
      (∀ d ∈ ds, d ∈ enabledL → d ∈ s'.sorted) ∧
      (∀ x ∈ s'.sorted, x ∈ s.sorted ∨ x ∉ s.processing) := by
  intro filtered ds
  induction ds with
  | nil =>
    intro s s' _ hinv hok
    cases hok
    exact ⟨hinv, rfl, List.prefix_refl _, by simp, fun x hx => Or.inl hx⟩
  | cons d ds ih =>
    intro s s' hds hinv hok
    rw [visitFold] at hok
    split at hok
    · rename_i hcond
      cases hv : visit reg enabledL fuel d s with
      | error e => rw [hv] at hok; simp at hok
      | ok s1 =>
        rw [hv] at hok
        dsimp only at hok
        have hd_en : d ∈ enabledL := by
          rcases hcond with hfil | hd_en
          · exact hds hfil d (List.mem_cons_self d ds)
          · exact hd_en
        obtain ⟨hinv1, hfr1, hpre1, hmem1, hnew1⟩ := hvisit d s s1 hd_en hinv hv
        obtain ⟨hinv2, hfr2, hpre2, hmem2, hnew2⟩ :=
          ih s1 s' (fun hfil d' hd' => hds hfil d' (List.mem_cons_of_mem d hd')) hinv1 hok
        refine ⟨hinv2, hfr2.trans hfr1, hpre1.trans hpre2, ?_, ?_⟩
        · intro d' hd' hd'en
          rcases List.mem_cons.mp hd' with rfl | hd'tl
          · exact hpre2.subset hmem1
          · exact hmem2 d' hd'tl hd'en
        · intro x hx
          rcases hnew2 x hx with hx1 | hxp
          · rcases hnew1 x hx1 with hx0 | hxp0
            · exact Or.inl hx0
            · exact Or.inr hxp0
          · exact Or.inr (hfr1 ▸ hxp)
    · rename_i hcond
      obtain ⟨hinv2, hfr2, hpre2, hmem2, hnew2⟩ :=
        ih s s' (fun hfil => absurd (Or.inl hfil) hcond) hinv hok
      refine ⟨hinv2, hfr2, hpre2, ?_, hnew2⟩
      intro d' hd' hd'en
      rcases List.mem_cons.mp hd' with rfl | hd'tl
      · exact absurd (Or.inr hd'en) hcond
      · exact hmem2 d' hd'tl hd'en

/-- Postconditions of a successful `visit`: invariant preserved, processing
restored, sorted only extended with kinds not in the entry processing set,
and the visited kind present in the result. -/
theorem visit_ok_post (reg : Registry) (enabledL : List JoiFileType) :
    ∀ (fuel : Nat) (t : JoiFileType) (s s' : DfsState), t ∈ enabledL →
      StInv reg enabledL s → visit reg enabledL fuel t s = .ok s' →
      StInv reg enabledL s' ∧ s'.processing = s.processing ∧ s.sorted <+: s'.sorted ∧
      t ∈ s'.sorted ∧ (∀ x ∈ s'.sorted, x ∈ s.sorted ∨ x ∉ s.processing) := by
  intro fuel
  induction fuel with
  | zero =>
    intro t s s' _ _ hok
    simp [visit] at hok
  | succ fuel ih =>
    intro t s s' hten hinv hok
    rw [visit] at hok
    split at hok
    · rename_i hdone
      cases hok
      have ht_sorted : t ∈ s.sorted := by
        have := hinv.1 ▸ hdone
        exact List.mem_reverse.mp this
      exact ⟨hinv, rfl, List.prefix_refl _, ht_sorted, fun x hx => Or.inl hx⟩
    · rename_i hdone
      split at hok
      · simp at hok
      rename_i hproc
      cases hf : visitFold enabledL true (visit reg enabledL fuel) (depsOf reg t)
          { s with processing := t :: s.processing } with
      | error e => rw [hf] at hok; simp at hok
      | ok s2 =>
        rw [hf] at hok
        dsimp only at hok
        cases hok
        have hs_start : StInv reg enabledL { s with processing := t :: s.processing } := hinv
        obtain ⟨hinv2, hfr2, hpre2, hmem2, hnew2⟩ :=
          visitFold_ok_post_aux reg enabledL fuel ih true (depsOf reg t)
            { s with processing := t :: s.processing } s2
            (fun h => Bool.noConfusion h) hs_start hf
        have ht_notin : t ∉ s2.sorted := by
          intro h
          rcases hnew2 t h with h0 | hp
          · exact hdone (hinv.1 ▸ List.mem_reverse.mpr h0)
          · exact hp (List.mem_cons_self t s.processing)
        have hdep_in : ∀ d ∈ depsOf reg t, d ∈ enabledL → d ∈ s2.sorted :=
          fun d hd hden => hmem2 d hd hden
        refine ⟨⟨?_, ?_, ?_, ?_⟩, ?_, ?_, ?_, ?_⟩
        · show t :: s2.processed = (s2.sorted ++ [t]).reverse
          rw [hinv2.1, List.reverse_append]
          rfl
        · have := hinv2.2.1
          simp [List.nodup_append, this, ht_notin]
        · intro x hx
          rcases List.mem_append.mp hx with hx2 | hxt
          · exact hinv2.2.2.1 x hx2
          · simp at hxt; exact hxt ▸ hten
        · exact topoOk_append reg enabledL s2.sorted t hinv2.2.2.2 ht_notin hdep_in
        · show s2.processing.erase t = s.processing
          rw [hfr2]
          exact List.erase_cons_head t s.processing
        · exact hpre2.trans (List.prefix_append s2.sorted [t])
        · simp
        · intro x hx
          rcases List.mem_append.mp hx with hx2 | hxt
          · rcases hnew2 x hx2 with h0 | hp
            · exact Or.inl h0
            · exact Or.inr (fun hxp => hp (List.mem_cons_of_mem t hxp))
          · simp at hxt
            exact Or.inr (hxt ▸ hproc)

/-- A filtered `visitFold` pass succeeds whenever each individual `visit` at
this fuel succeeds under the stated preconditions. -/
theorem visitFold_ok_of_acyclic_aux (reg : Registry) (enabledL : List JoiFileType)
    (fuel : Nat)
    (hvisit_ok : ∀ (t : JoiFileType) (s : DfsState), t ∈ enabledL →
      StInv reg enabledL s → s.processing.Nodup →
      (∀ p ∈ s.processing, p ∈ enabledL) →
      (∀ p ∈ s.processing, Relation.TransGen (Edge reg enabledL) p t) →
      enabledL.length + 1 ≤ fuel + s.processing.length →
      ∃ s', visit reg enabledL fuel t s = .ok s') :
    ∀ (ds : List JoiFileType) (s : DfsState),
      StInv reg enabledL s → s.processing.Nodup →
      (∀ p ∈ s.processing, p ∈ enabledL) →
      (∀ d ∈ ds, d ∈ enabledL → ∀ p ∈ s.processing,
        Relation.TransGen (Edge reg enabledL) p d) →
      enabledL.length + 1 ≤ fuel + s.processing.length →
      ∃ s', visitFold enabledL true (visit reg enabledL fuel) ds s = .ok s' := by
  intro ds
  induction ds with
  | nil => intro s _ _ _ _ _; exact ⟨s, rfl⟩
  | cons d ds ih =>
    intro s hinv hnd hpen hchain hfuel
    rw [visitFold]
    by_cases hcond : (true : Bool) = false ∨ d ∈ enabledL
    · rw [if_pos hcond]
      have hden : d ∈ enabledL := by
        rcases hcond with h | h
        · exact Bool.noConfusion h
        · exact h
      obtain ⟨s1, hv⟩ := hvisit_ok d s hden hinv hnd hpen
        (fun p hp => hchain d (List.mem_cons_self d ds) hden p hp) hfuel
      rw [hv]
      dsimp only
      obtain ⟨hinv1, hfr1, _, _, _⟩ := visit_ok_post reg enabledL fuel d s s1 hden hinv hv
      exact ih s1 hinv1 (hfr1 ▸ hnd) (fun p hp => hpen p (hfr1 ▸ hp))
        (fun d' hd' hd'en p hp =>
          hchain d' (List.mem_cons_of_mem d hd') hd'en p (hfr1 ▸ hp))
        (by rw [hfr1]; exact hfuel)
    · rw [if_neg hcond]
      exact ih s hinv hnd hpen
        (fun d' hd' hd'en p hp => hchain d' (List.mem_cons_of_mem d hd') hd'en p hp) hfuel

/-- Acyclic success of `visit`: under the no-enabled-cycle hypothesis and a
fuel budget covering the remaining depth, `visit` always returns `.ok`. -/
theorem visit_ok_of_acyclic (reg : Registry) (enabledL : List JoiFileType)
    (hacyc : ∀ u, ¬ Relation.TransGen (Edge reg enabledL) u u) :
    ∀ (fuel : Nat) (t : JoiFileType) (s : DfsState), t ∈ enabledL →
      StInv reg enabledL s → s.processing.Nodup →
      (∀ p ∈ s.processing, p ∈ enabledL) →
      (∀ p ∈ s.processing, Relation.TransGen (Edge reg enabledL) p t) →
      enabledL.length + 1 ≤ fuel + s.processing.length →
      ∃ s', visit reg enabledL fuel t s = .ok s' := by
  intro fuel
  induction fuel with
  | zero =>
    intro t s _ _ hnd hpen _ hfuel
    have hle : s.processing.length ≤ enabledL.length :=
      (List.subperm_of_subset hnd hpen).length_le
    omega
  | succ fuel ih =>
    intro t s hten hinv hnd hpen hchain hfuel
    rw [visit]
    by_cases hdone : t ∈ s.processed
    · rw [if_pos hdone]; exact ⟨s, rfl⟩
    · rw [if_neg hdone]
      by_cases hproc : t ∈ s.processing
      · exact absurd (hchain t hproc) (hacyc t)
      · rw [if_neg hproc]
        obtain ⟨s2, hf⟩ := visitFold_ok_of_acyclic_aux reg enabledL fuel ih
          (depsOf reg t) { s with processing := t :: s.processing }
          hinv (List.nodup_cons.mpr ⟨hproc, hnd⟩)
          (by
            intro p hp
            rcases List.mem_cons.mp hp with rfl | hp'
            · exact hten
            · exact hpen p hp')
          (by
            intro d hd hden p hp
            have hedge : Edge reg enabledL t d := ⟨hten, hden, hd⟩
            rcases List.mem_cons.mp hp with rfl | hp'
            · exact Relation.TransGen.single hedge
            · exact (hchain p hp').tail hedge)
          (by simp only [List.length_cons]; omega)
        rw [hf]
        exact ⟨_, rfl⟩

/-- The seeding (unfiltered) `visitFold` pass succeeds whenever each `visit`
at this fuel succeeds under the stated preconditions. -/
theorem visitFold_ok_top (reg : Registry) (enabledL : List JoiFileType) (fuel : Nat)
    (hvisit_ok : ∀ (t : JoiFileType) (s : DfsState), t ∈ enabledL →
      StInv reg enabledL s → s.processing.Nodup →
      (∀ p ∈ s.processing, p ∈ enabledL) →
      (∀ p ∈ s.processing, Relation.TransGen (Edge reg enabledL) p t) →
      enabledL.length + 1 ≤ fuel + s.processing.length →
      ∃ s', visit reg enabledL fuel t s = .ok s') :
    ∀ (ds : List JoiFileType) (s : DfsState), (∀ d ∈ ds, d ∈ enabledL) →
      StInv reg enabledL s → s.processing.Nodup →
      (∀ p ∈ s.processing, p ∈ enabledL) →
      (∀ d ∈ ds, ∀ p ∈ s.processing, Relation.TransGen (Edge reg enabledL) p d) →
      enabledL.length + 1 ≤ fuel + s.processing.length →
      ∃ s', visitFold enabledL false (visit reg enabledL fuel) ds s = .ok s' := by
  intro ds
  induction ds with
  | nil => intro s _ _ _ _ _ _; exact ⟨s, rfl⟩
  | cons d ds ih =>
    intro s hds hinv hnd hpen hchain hfuel
    rw [visitFold, if_pos (Or.inl rfl)]
    obtain ⟨s1, hv⟩ := hvisit_ok d s (hds d (List.mem_cons_self d ds)) hinv hnd hpen
      (fun p hp => hchain d (List.mem_cons_self d ds) p hp) hfuel
    rw [hv]
    dsimp only
    obtain ⟨hinv1, hfr1, _, _, _⟩ := visit_ok_post reg enabledL fuel d s s1
      (hds d (List.mem_cons_self d ds)) hinv hv
    exact ih s1 (fun d' hd' => hds d' (List.mem_cons_of_mem d hd')) hinv1
      (hfr1 ▸ hnd) (fun p hp => hpen p (hfr1 ▸ hp))
      (fun d' hd' p hp => hchain d' (List.mem_cons_of_mem d hd') p (hfr1 ▸ hp))
      (by rw [hfr1]; exact hfuel)

/-- The source of any chain of enabled dependency edges is itself enabled. -/
theorem transGen_mem_left (reg : Registry) (enabledL : List JoiFileType) :
    ∀ a b, Relation.TransGen (Edge reg enabledL) a b → a ∈ enabledL := by
  intro a b h
  induction h with
  | single h => exact h.1
  | tail _ _ ih => exact ih

/-- Along any chain of enabled dependency edges, membership in a
topologically ordered list propagates and the index strictly decreases. -/
theorem transGen_indexOf_lt (reg : Registry) (enabledL l : List JoiFileType)
    (htopo : TopoOk reg enabledL l) :
    ∀ a b, Relation.TransGen (Edge reg enabledL) a b → a ∈ l →
      b ∈ l ∧ l.indexOf b < l.indexOf a := by
  intro a b h
  induction h with
  | single h => intro ha; exact htopo a ha _ h.2.2 h.2.1
  | tail _ hbc ih =>
    intro ha
    obtain ⟨hb, hlt⟩ := ih ha
    obtain ⟨hc, hlt2⟩ := htopo _ hb _ hbc.2.2 hbc.2.1
    exact ⟨hc, hlt2.trans hlt⟩

/-- `getGenerationOrder` as a match on the seeding fold (by definitional
unfolding). -/
theorem getGenerationOrder_eq (reg : Registry) (cfg : ValidatedJoiGeneratorConfig) :
    getGenerationOrder reg cfg =
      match visitFold (getEnabledTypes reg cfg) false
          (visit reg (getEnabledTypes reg cfg) ((getEnabledTypes reg cfg).length + 1))
          (List.insertionSort (fun a b => priorityOf reg a ≤ priorityOf reg b)
            (getEnabledTypes reg cfg))
          { processing := [], processed := [], sorted := [] } with
      | .ok s => .ok s.sorted
      | .error e => .error e := rfl

/-- C3: for every registry with distinct registered kinds and every enabled
subset closed under declared dependencies, `getGenerationOrder` returns a
permutation of the enabled kinds in which every kind appears strictly after
each of its declared dependencies whenever the enabled dependency graph is
acyclic, and returns a hard error whenever that graph has a cycle. -/
theorem getGenerationOrder_spec (reg : Registry) (cfg : ValidatedJoiGeneratorConfig)
    (hkeys : (getAllTypes reg).Nodup)
    (hdeps : ∀ t ∈ getEnabledTypes reg cfg, ∀ d ∈ depsOf reg t,
      d ∈ getEnabledTypes reg cfg) :
    (¬ HasEnabledCycle reg cfg →
      ∃ l, getGenerationOrder reg cfg = .ok l ∧ l.Perm (getEnabledTypes reg cfg) ∧
        ∀ k ∈ l, ∀ d ∈ depsOf reg k, d ∈ l ∧ l.indexOf d < l.indexOf k) ∧
    (HasEnabledCycle reg cfg → ∃ e, getGenerationOrder reg cfg = .error e) := by
  have hs0 : StInv reg (getEnabledTypes reg cfg)
      { processing := [], processed := [], sorted := [] } := by
    refine ⟨rfl, List.nodup_nil, ?_, ?_⟩
    · intro x hx; exact absurd hx (List.not_mem_nil x)
    · intro k hk; exact absurd hk (List.not_mem_nil k)
  have hperm := List.perm_insertionSort
    (fun a b => priorityOf reg a ≤ priorityOf reg b) (getEnabledTypes reg cfg)
  have henN : (getEnabledTypes reg cfg).Nodup := hkeys.filter _
  constructor
  · intro hnc
    have hacyc : ∀ u, ¬ Relation.TransGen (Edge reg (getEnabledTypes reg cfg)) u u :=
      fun u h => hnc ⟨u, h⟩
    obtain ⟨sF, hF⟩ := visitFold_ok_top reg (getEnabledTypes reg cfg)
      ((getEnabledTypes reg cfg).length + 1)
      (visit_ok_of_acyclic reg (getEnabledTypes reg cfg) hacyc
        ((getEnabledTypes reg cfg).length + 1))
      (List.insertionSort (fun a b => priorityOf reg a ≤ priorityOf reg b)
        (getEnabledTypes reg cfg))
      { processing := [], processed := [], sorted := [] }
      (fun d hd => hperm.subset hd) hs0 List.nodup_nil
      (fun p hp => absurd hp (List.not_mem_nil p))
      (fun d _ p hp => absurd hp (List.not_mem_nil p))
      (by simp)
    obtain ⟨hinvF, _, _, hmemF, _⟩ := visitFold_ok_post_aux reg (getEnabledTypes reg cfg)
      ((getEnabledTypes reg cfg).length + 1)
      (visit_ok_post reg (getEnabledTypes reg cfg) ((getEnabledTypes reg cfg).length + 1))
      false _ _ _ (fun _ d hd => hperm.subset hd) hs0 hF
    refine ⟨sF.sorted, ?_, ?_, ?_⟩
    · rw [getGenerationOrder_eq, hF]
    · refine (List.perm_ext_iff_of_nodup hinvF.2.1 henN).mpr ?_
      intro x
      constructor
      · exact fun hx => hinvF.2.2.1 x hx
      · intro hx
        exact hmemF x (hperm.mem_iff.mpr hx) hx
    · intro k hk d hd
      have hken : k ∈ getEnabledTypes reg cfg := hinvF.2.2.1 k hk
      exact hinvF.2.2.2 k hk d hd (hdeps k hken d hd)
  · intro hcyc
    cases hG : visitFold (getEnabledTypes reg cfg) false
        (visit reg (getEnabledTypes reg cfg) ((getEnabledTypes reg cfg).length + 1))
        (List.insertionSort (fun a b => priorityOf reg a ≤ priorityOf reg b)
          (getEnabledTypes reg cfg))
        { processing := [], processed := [], sorted := [] } with
    | error e => exact ⟨e, by rw [getGenerationOrder_eq, hG]⟩
    | ok sF =>
      exfalso
      obtain ⟨hinvF, _, _, hmemF, _⟩ := visitFold_ok_post_aux reg (getEnabledTypes reg cfg)
        ((getEnabledTypes reg cfg).length + 1)
        (visit_ok_post reg (getEnabledTypes reg cfg) ((getEnabledTypes reg cfg).length + 1))
        false _ _ _ (fun _ d hd => hperm.subset hd) hs0 hG
      obtain ⟨u, hu⟩ := hcyc
      have hu_en := transGen_mem_left reg (getEnabledTypes reg cfg) u u hu
      have hu_l : u ∈ sF.sorted := hmemF u (hperm.mem_iff.mpr hu_en) hu_en
      have hlt := (transGen_indexOf_lt reg (getEnabledTypes reg cfg) sF.sorted
        hinvF.2.2.2 u u hu hu_l).2
      exact absurd hlt (lt_irrefl _)

/-- A relation whose steps strictly decrease a natural-number rank admits no
transitive cycle. -/
theorem no_transGen_self_of_rank {α : Type} (r : α → α → Prop) (f : α → Nat)
    (hf : ∀ a b, r a b → f b < f a) : ∀ u, ¬ Relation.TransGen r u u := by
  have key : ∀ a b, Relation.TransGen r a b → f b < f a := by
    intro a b h
    induction h with
    | single h => exact hf _ _ h
    | tail _ hbc ih => exact (hf _ _ hbc).trans ih
  intro u h
  exact absurd (key u u h) (lt_irrefl _)

/-- A decidable check implying that every enabled dependency edge strictly
decreases a given rank. -/
theorem edge_rank_of_check (reg : Registry) (enabledL : List JoiFileType)
    (f : JoiFileType → Nat)
    (h : enabledL.all (fun a =>
      ((depsOf reg a).filter (fun b => decide (b ∈ enabledL))).all
        (fun b => decide (f b < f a))) = true) :
    ∀ a b, Edge reg enabledL a b → f b < f a := by
  rintro a b ⟨ha, hb, hd⟩
  have h1 := List.all_eq_true.mp h a ha
  have h2 := List.all_eq_true.mp h1 b (List.mem_filter.mpr ⟨hd, by simpa using hb⟩)
  simpa using h2

/-- The three-level rank of the built-in registry: enums below objects below
the operation kinds. -/
def rankC3 (t : JoiFileType) : Nat :=
  if t = "enums" then 0 else if t = "objects" then 1 else 2

/-- The configuration used to instantiate the ordering theorem: grouped
strategy with every registered kind enabled. -/
def cfgC3 : ValidatedJoiGeneratorConfig :=
  mkDefaultCfg "grouped" validFileTypes

theorem getGenerationOrder_spec_witness :
    ∃ l, getGenerationOrder builtinRegistry cfgC3 = .ok l ∧
      l.Perm (getEnabledTypes builtinRegistry cfgC3) ∧
      ∀ k ∈ l, ∀ d ∈ depsOf builtinRegistry k, d ∈ l ∧ l.indexOf d < l.indexOf k :=
  (getGenerationOrder_spec builtinRegistry cfgC3 (by decide) (by decide)).1
    (fun hc => by
      obtain ⟨u, hu⟩ := hc
      exact no_transGen_self_of_rank _ rankC3
        (edge_rank_of_check builtinRegistry (getEnabledTypes builtinRegistry cfgC3)
          rankC3 (by decide)) u hu)
